import Mathlib

/-
Verification of the blueprint core (src/blueprint/__init__.py) against its
natural-language specification.  The Python data model is embedded shallowly:
Python dicts become association lists over String keys (Python dict equality
ignores internal order, which we recover through key-sorting normalisation),
JSON-loaded version sets become lists of strings (the subtraction code uses
list index operations on them), and the lazily initialised defaultdict
properties become explicit Option-valued fields, where a property access that
would create an empty container is modelled as a state-passing "touch".
-/

namespace BlueprintSpec

/-- Association list with string keys, the embedding of a Python dict. -/
abbrev AList (β : Type) : Type := List (String × β)

/-- Python d.get(k): first value stored under key k, if any. -/
def lookupA {β : Type} : AList β → String → Option β
  | [], _ => none
  | p :: ps, k => if p.1 = k then some p.2 else lookupA ps k

/-- Python `k in d`. -/
def keysMem {β : Type} (l : AList β) (k : String) : Bool :=
  (lookupA l k).isSome

/-- Python d[k] = v: replace the entry in place if the key exists, else append. -/
def setKey {β : Type} (l : AList β) (k : String) (v : β) : AList β :=
  if keysMem l k then l.map (fun p => if p.1 = k then (k, v) else p)
  else l ++ [(k, v)]

/-- Python `del d[k]` (for a present key; callers guard presence). -/
def eraseKey {β : Type} (l : AList β) (k : String) : AList β :=
  l.filter (fun p => p.1 ≠ k)

/-- Lexicographic strict comparison of character lists, the order Python
sorted() applies to the (here ASCII) keys. -/
def charListLt : List Char → List Char → Bool
  | [], [] => false
  | [], _ :: _ => true
  | _ :: _, [] => false
  | c :: cs, d :: ds =>
    if c.toNat < d.toNat then true
    else if d.toNat < c.toNat then false
    else charListLt cs ds

/-- Strict lexicographic order on strings. -/
def strLt (s t : String) : Bool := charListLt s.data t.data

/-- Lexicographic order on strings (total, reflexive, transitive). -/
def strLe (s t : String) : Bool := !(charListLt t.data s.data)

/-- Insert into a key-sorted association list, keeping it sorted. -/
def insSorted {β : Type} (p : String × β) : AList β → AList β
  | [] => [p]
  | q :: qs => if strLe p.1 q.1 then p :: q :: qs else q :: insSorted p qs

/-- Sort an association list by key; the embedding of Python sorted(d.items())
for dicts with unique keys (a pair sorts by its first component then). -/
def sortByKey {β : Type} (l : AList β) : AList β :=
  l.foldr insSorted []

/-- File metadata record: a flat attribute dict (only its equality matters). -/
abbrev FileMeta : Type := AList String

/-- The two-level package map: manager name to package name to version list. -/
abbrev PkgMap : Type := AList (AList (List String))

/-- Dependency record of one service, with lazily present keys, as it appears
in a JSON-loaded blueprint. -/
structure SvcDeps where
  dfiles : Option (List String) := none
  dpackages : Option (AList (List String)) := none
  dsources : Option (List String) := none
deriving DecidableEq, Repr

/-- Service map: manager name to service name to dependency record. -/
abbrev SvcMap : Type := AList (AList SvcDeps)

/-- The Blueprint data model (the dict subclass): a field is none when the
corresponding top-level key is absent from the underlying mapping, and the
arch value itself may be null (some none). -/
structure Blueprint where
  arch : Option (Option String) := none
  files : Option (AList FileMeta) := none
  packages : Option PkgMap := none
  services : Option SvcMap := none
  sources : Option (AList String) := none
deriving DecidableEq, Repr

/-- The empty blueprint: no top-level keys at all. -/
def emptyBp : Blueprint := {}

/-- Accessing the files property creates the key with an empty default. -/
def touchFiles (b : Blueprint) : Blueprint :=
  { b with files := some (b.files.getD []) }

/-- Accessing the packages property creates the key with an empty default. -/
def touchPackages (b : Blueprint) : Blueprint :=
  { b with packages := some (b.packages.getD []) }

/-- Accessing the services property creates the key with an empty default. -/
def touchServices (b : Blueprint) : Blueprint :=
  { b with services := some (b.services.getD []) }

/-- Accessing the sources property creates the key with an empty default. -/
def touchSources (b : Blueprint) : Blueprint :=
  { b with sources := some (b.sources.getD []) }

/-- Effect of a full walk on the walked blueprint itself: each of the four
resource properties is read, so each top-level key is lazily created. -/
def touchWalk (b : Blueprint) : Blueprint :=
  touchSources (touchFiles (touchPackages (touchServices b)))

/-! ## The package walk (walk_packages) -/

/-- One callback invocation of the package walk.  The manager argument passed
to a callback is modelled by the manager name: the Manager view object of the
source (module manager, not under src/) is, per the specification, a manager
name bound to the sub-mapping packages[name], and the subtraction and
hierarchy code only ever reads its name and items. -/
inductive PkgEvent where
  | beforePkgs (m : String)
  | pkgV (m p v : String)
  | afterPkgs (m : String)
deriving DecidableEq, Repr

/-- packages.get(m, the empty dict): the sub-mapping a Manager view wraps. -/
def pkgsOf (ps : PkgMap) (m : String) : AList (List String) :=
  (lookupA ps m).getD []

/-- sorted(manager.iteritems()). -/
def mgrItems (ps : PkgMap) (m : String) : AList (List String) :=
  sortByKey (pkgsOf ps m)

/-- The package callbacks fired while visiting manager m itself: each version
of each package, packages in sorted name order, versions in stored order. -/
def pkgEvts (ps : PkgMap) (m : String) : List PkgEvent :=
  (mgrItems ps m).foldr (fun pv acc => pv.2.map (PkgEvent.pkgV m pv.1) ++ acc) []

/-- The sub-managers queued while visiting m: packages of m, in sorted order,
whose name differs from m and is itself a manager key of the blueprint. -/
def childrenOf (ps : PkgMap) (m : String) : List String :=
  (mgrItems ps m).filterMap
    (fun pv => if m ≠ pv.1 ∧ keysMem ps pv.1 then some pv.1 else none)

/-- Traces of the recursive visits into a queue of sub-managers, where sub
produces the trace of one sub-manager visit (the loop at the end of
walk_packages). -/
def walkChildren (sub : String → Option (List PkgEvent)) :
    List String → Option (List PkgEvent)
  | [] => some []
  | c :: cs => do
    let e ← sub c
    let es ← walkChildren sub cs
    pure (e ++ es)

/-- Callback trace of walk_packages(m) with explicit recursion-depth fuel;
none means the fuel was exhausted (the Python recursion ran deeper). -/
def walkFrom (ps : PkgMap) : Nat → String → Option (List PkgEvent)
  | 0, _ => none
  | n + 1, m =>
    (walkChildren (walkFrom ps n) (childrenOf ps m)).map
      (fun rest => PkgEvent.beforePkgs m :: pkgEvts ps m ++ PkgEvent.afterPkgs m :: rest)

/-- walk_packages with no manager argument: the walk starts from the two
system roots, apt then yum. -/
def walkTop (ps : PkgMap) (fuel : Nat) : Option (List PkgEvent) := do
  let a ← walkFrom ps fuel "apt"
  let y ← walkFrom ps fuel "yum"
  pure (a ++ y)

/-! ## The source walk (walk_sources) -/

/-- Which of the three source-walk callbacks the caller supplied. -/
structure SrcCfg where
  hasBefore : Bool
  hasSource : Bool
  hasAfter : Bool
deriving DecidableEq, Repr

/-- One callback invocation of the source walk. -/
inductive SrcEvent where
  | beforeSrcs
  | srcItem (d f : String)
  | afterSrcs
deriving DecidableEq, Repr

/-- Callback trace of walk_sources as the code executes it: the leading
kwargs.get fires before_sources when supplied, the loop fires source per
sorted entry, and the trailing kwargs.get looks up before_sources again
(source line 424), so the supplied after_sources callback is never fired. -/
def walkSourcesTrace (srcs : AList String) (cfg : SrcCfg) : List SrcEvent :=
  (if cfg.hasBefore then [SrcEvent.beforeSrcs] else [])
    ++ (if cfg.hasSource then (sortByKey srcs).map (fun p => SrcEvent.srcItem p.1 p.2) else [])
    ++ (if cfg.hasBefore then [SrcEvent.beforeSrcs] else [])

/-- Modelled from the spec: the trace walk_sources is documented (docstring,
spec section 4.2) to produce, with before_sources once first and
after_sources once last.  Used to state claim C5 against the code. -/
def specWalkSourcesTrace (srcs : AList String) (cfg : SrcCfg) : List SrcEvent :=
  (if cfg.hasBefore then [SrcEvent.beforeSrcs] else [])
    ++ (if cfg.hasSource then (sortByKey srcs).map (fun p => SrcEvent.srcItem p.1 p.2) else [])
    ++ (if cfg.hasAfter then [SrcEvent.afterSrcs] else [])

/-! ## Subtraction (Blueprint.__sub__) -/

/-- Defaultdict read b.packages[m]: creates an empty entry under m when the
key is missing (the deepcopy b keeps the defaultdict behaviour of the
packages property). -/
def ensureKey (b : PkgMap) (m : String) : PkgMap :=
  if keysMem b m then b else b ++ [(m, [])]

/-- The pass-1 callback of __sub__ (source lines 106-122) acting on the
package map of the result, for one walked triple (manager m, package p,
version v): skip when p is itself a manager key present in the result; skip
when the manager lists its own name as one of its packages in the result;
otherwise read b.packages[m] (creating it empty when missing), and when p is
recorded there delete one occurrence of v from its version list, dropping
the package key entirely when no version remains. -/
def pass1Step (b : PkgMap) (m p v : String) : PkgMap :=
  if keysMem b p then b
  else if keysMem (pkgsOf b m) m then b
  else
    let b1 := ensureKey b m
    let bp := pkgsOf b1 m
    match lookupA bp p with
    | none => b1
    | some vers =>
      let vers1 := vers.erase v
      if vers1.isEmpty then setKey b1 m (eraseKey bp p)
      else setKey b1 m (setKey bp p vers1)

/-- Modelled from the spec: the pass-1 step as the specification words it
(section 4.3 item 2): skip when the package is a manager key already absent
from the result, skip when the manager name matches the package name, else
remove the version from the set at [manager][package] and delete the package
key when its version set becomes empty.  otherMgrs is the set of manager
keys of the walked base blueprint, against which "is itself a manager key"
is judged.  Stated only to compare the code against claim C1. -/
def specPass1Step (otherMgrs : List String) (b : PkgMap) (m p v : String) : PkgMap :=
  if p ∈ otherMgrs ∧ ¬ keysMem b p then b
  else if m = p then b
  else
    match lookupA b m with
    | none => b
    | some bp =>
      match lookupA bp p with
      | none => b
      | some vers =>
        let vers1 := vers.erase v
        if vers1.isEmpty then setKey b m (eraseKey bp p)
        else setKey b m (setKey bp p vers1)

/-- The managers map computed by the managers property from a package walk of
a blueprint with package map ps: apt and yum are roots owned by none, and
each package that is also a manager key is owned by the manager that listed
it last in walk order (the Manager view compares unequal to a package name,
so the walk guard reduces to the key test). -/
def managersFromEvents (ps : PkgMap) (evs : List PkgEvent) : AList (Option String) :=
  evs.foldl
    (fun acc e =>
      match e with
      | PkgEvent.pkgV m p _ => if keysMem ps p then setKey acc p (some m) else acc
      | _ => acc)
    [("apt", none), ("yum", none)]

/-- Evaluating self.managers inside pass 2: walks self (touching all four of
its lazy properties) and builds the ownership map; none when the recursive
walk of self needs more fuel than given. -/
def managersEval (fuel : Nat) (a : Blueprint) : Option (Blueprint × AList (Option String)) :=
  (walkTop (a.packages.getD []) fuel).map
    (fun evs => (touchWalk a, managersFromEvents (a.packages.getD []) evs))

/-- The deletion performed by the pass-2 callback once an empty manager p is
found (source lines 132-133): drop the manager key p, then delete p from the
package dict of its owner as recorded by self.managers.  none models the
exceptions the code raises when p has no owner entry, when its owner is a
root (None has no name attribute), or when the owner has no entry p. -/
def pass2Del (mgrs : AList (Option String)) (b : PkgMap) (p : String) : Option PkgMap :=
  let b1 := eraseKey b p
  match lookupA mgrs p with
  | none => none
  | some none => none
  | some (some parent) =>
    match lookupA b1 parent with
    | none => none
    | some pl => if keysMem pl p then some (setKey b1 parent (eraseKey pl p)) else none

/-- Pass-2 callback for one walked event: on a package event for p, when p is
a manager key of the result whose package dict is empty, delete it from the
result and from its owner; the self blueprint is threaded because evaluating
self.managers walks and touches it. -/
def pass2Event (fuel : Nat) (st : Blueprint × PkgMap) (e : PkgEvent) :
    Option (Blueprint × PkgMap) :=
  match e with
  | PkgEvent.pkgV _ p _ =>
    if ¬ keysMem st.2 p then some st
    else if ¬ (pkgsOf st.2 p).isEmpty then some st
    else do
      let am ← managersEval fuel st.1
      let b1 ← pass2Del am.2 st.2 p
      some (am.1, b1)
  | _ => some st

/-- One other.walk(package=...) sweep of pass 2 over the fixed event list. -/
def pass2Iter (fuel : Nat) (evs : List PkgEvent) (st : Blueprint × PkgMap) :
    Option (Blueprint × PkgMap) :=
  evs.foldlM (pass2Event fuel) st

/-- The while-loop of pass 2: record the manager count, sweep, and stop when
the count no longer shrinks; loopFuel bounds the number of sweeps. -/
def pass2Loop (fuel : Nat) (loopFuel : Nat) (evs : List PkgEvent) (a : Blueprint)
    (b : PkgMap) : Option (Blueprint × PkgMap) :=
  match loopFuel with
  | 0 => none
  | n + 1 => do
    let l := b.length
    let st ← pass2Iter fuel evs (a, b)
    if st.2.length = l then some st else pass2Loop fuel n evs st.1 st.2

/-- Does cs consist of one or more digits (the regex d+)? -/
def allDigits (cs : List Char) : Bool :=
  !cs.isEmpty && cs.all Char.isDigit

/-- Does cs match the regex d+(.d+)? completely? -/
def numOptFrac (cs : List Char) : Bool :=
  let d := cs.takeWhile Char.isDigit
  let r := cs.drop d.length
  !d.isEmpty && (r.isEmpty || (r.headD ' ' == '.' && allDigits r.tail))

/-- Does cs match the regex d+.d+(.d+)? completely? -/
def numFrac (cs : List Char) : Bool :=
  let d := cs.takeWhile Char.isDigit
  let r := cs.drop d.length
  !d.isEmpty && !r.isEmpty && r.headD ' ' == '.' && numOptFrac r.tail

/-- Anchored match of one runtime-manager pattern: name is pre followed by a
version group accepted by check; returns the captured group. -/
def verGroup (pre : String) (name : String) (check : List Char → Bool) : Option String :=
  if pre.isPrefixOf name then
    let rest := (name.toList.drop pre.toList.length).asString
    if check rest.toList then some rest else none
  else none

/-- The deps table of pass 3 (source lines 150-158): the dev packages to add
back for a manager name matching one of the three runtime patterns, with the
version group substituted.  The three patterns are mutually exclusive, so
the arbitrary dict order of the source cannot change the outcome. -/
def pass3Deps (mname : String) : Option (List String) :=
  match verGroup "python" mname numOptFrac with
  | some g => some ["python" ++ g, "python" ++ g ++ "-dev", "python", "python-devel"]
  | none =>
    match verGroup "rubygems" mname numFrac with
    | some g => some ["ruby" ++ g, "ruby" ++ g ++ "-dev", "ruby", "ruby-devel"]
    | none =>
      match verGroup "ruby" mname numFrac with
      | some g => some ["ruby" ++ g ++ "-dev"]
      | none => none

/-- Re-insertion of one dev package nm in pass 3: for apt then yum, read the
version list self recorded for nm (touching self.packages) and, when one
exists, store it into the result under that manager (defaultdict creation
included). -/
def pass3Insert (st : Blueprint × PkgMap) (nm : String) : Blueprint × PkgMap :=
  (["apt", "yum"]).foldl
    (fun s mn =>
      let a1 := touchPackages s.1
      match (lookupA (a1.packages.getD []) mn).bind (fun mp => lookupA mp nm) with
      | none => (a1, s.2)
      | some vs => (a1, setKey s.2 mn (setKey ((lookupA s.2 mn).getD []) nm vs)))
    st

/-- Pass-3 callback for one walked event: on after_packages for manager m
present in the result, when m matches a runtime pattern re-insert each of
its dev packages recorded by self. -/
def pass3Event (st : Blueprint × PkgMap) (e : PkgEvent) : Blueprint × PkgMap :=
  match e with
  | PkgEvent.afterPkgs m =>
    if ¬ keysMem st.2 m then st
    else
      match pass3Deps m with
      | none => st
      | some deps => deps.foldl pass3Insert st
  | _ => st

/-- The file pass of __sub__: keep a file of self when the base records a
different (or no, compared against an empty default) metadata record at the
same pathname. -/
def subFilePass (aFiles : Option (AList FileMeta)) (oFiles : AList FileMeta) :
    Option (AList FileMeta) :=
  aFiles.map (fun fs => fs.filter (fun p => !((lookupA oFiles p.1).getD [] == p.2)))

/-- The source pass of __sub__: keep a source of self when the base records a
different tarball filename (an empty default when absent) at the dirname. -/
def subSrcPass (aSrcs : Option (AList String)) (oSrcs : AList String) :
    Option (AList String) :=
  aSrcs.map (fun ss => ss.filter (fun p => !((lookupA oSrcs p.1).getD "" == p.2)))

/-- Blueprint subtraction a - o as __sub__ executes it, with fuel bounding
walk recursion depth and pass-2 sweeps.  Returns (result, final state of a,
final state of o): the operands come back because the lazy properties touch
them along the way.  none models a diverging walk, exhausted fuel, or one of
the exceptions pass 2 can raise. -/
def subFuel (fuel : Nat) (a0 o0 : Blueprint) : Option (Blueprint × Blueprint × Blueprint) := do
  let bFiles := subFilePass a0.files (o0.files.getD [])
  let a1 := touchFiles a0
  let oFin := touchWalk (if (a0.files.getD []).isEmpty then o0 else touchFiles o0)
  let evs ← walkTop (o0.packages.getD []) fuel
  let bp1 : Option PkgMap :=
    evs.foldl
      (fun bo e =>
        match e with
        | PkgEvent.pkgV m p v => some (pass1Step (bo.getD []) m p v)
        | _ => bo)
      a0.packages
  let st2 ← pass2Loop fuel fuel evs a1 (bp1.getD [])
  let st3 := evs.foldl pass3Event st2
  let bSrcs := subSrcPass a0.sources (o0.sources.getD [])
  let a4 := touchSources st3.1
  let res : Blueprint :=
    { arch := a0.arch, files := bFiles, packages := some st3.2
      services := a0.services, sources := bSrcs }
  pure (res, a4, oFin)

/-- The result blueprint of a - o alone. -/
def subResult (fuel : Nat) (a0 o0 : Blueprint) : Option Blueprint :=
  (subFuel fuel a0 o0).map (fun t => t.1)

/-! ## Serialization (Blueprint.dumps) and deserialization (Blueprint.__init__) -/

/-- The destructive cleanup dumps performs on the blueprint itself before
encoding (source lines 346-350): delete a null arch entry, and delete each
of the files, packages and sources keys whose container is empty.  The
services key is not in the cleanup list and survives even when empty. -/
def dumpsState (b : Blueprint) : Blueprint :=
  { b with
    arch := if b.arch = some none then none else b.arch
    files := if b.files = some [] then none else b.files
    packages := if b.packages = some [] then none else b.packages
    sources := if b.sources = some [] then none else b.sources }

/-- JSON documents, as far as blueprint serialization needs them. -/
inductive Json where
  | jnull
  | jstr (s : String)
  | jarr (l : List Json)
  | jobj (l : List (String × Json))
deriving Repr

/-- Encode an object body from an association list, given a value encoder. -/
def encObjWith {β : Type} (enc : β → Json) (l : AList β) : List (String × Json) :=
  l.map (fun p => (p.1, enc p.2))

/-- Encode a string list as a JSON array. -/
def encStrArr (l : List String) : Json :=
  Json.jarr (l.map Json.jstr)

/-- Encode a file metadata record with sorted keys. -/
def encMeta (m : FileMeta) : Json :=
  Json.jobj (encObjWith Json.jstr (sortByKey m))

/-- Encode the files mapping with sorted keys. -/
def encFiles (fs : AList FileMeta) : Json :=
  Json.jobj (encObjWith encMeta (sortByKey fs))

/-- Encode a manager-to-name-list mapping with sorted keys; the lists keep
their stored order (the JSON encoder passes lists through unchanged). -/
def encPkgsInner (m : AList (List String)) : Json :=
  Json.jobj (encObjWith encStrArr (sortByKey m))

/-- Encode the package map with sorted keys at both levels. -/
def encPkgs (ps : PkgMap) : Json :=
  Json.jobj (encObjWith encPkgsInner (sortByKey ps))

/-- Encode one service dependency record: only the present keys appear, and
files, packages, sources is already their sorted key order. -/
def encDeps (d : SvcDeps) : Json :=
  Json.jobj
    ((match d.dfiles with
      | none => []
      | some l => [("files", encStrArr l)])
    ++ (match d.dpackages with
      | none => []
      | some m => [("packages", encPkgsInner m)])
    ++ (match d.dsources with
      | none => []
      | some l => [("sources", encStrArr l)]))

/-- Encode the service dict of one service manager with sorted keys. -/
def encSvcInner (sl : AList SvcDeps) : Json :=
  Json.jobj (encObjWith encDeps (sortByKey sl))

/-- Encode the services mapping with sorted keys. -/
def encSvcs (sv : SvcMap) : Json :=
  Json.jobj (encObjWith encSvcInner (sortByKey sv))

/-- Encode the sources mapping with sorted keys. -/
def encSrcs (ss : AList String) : Json :=
  Json.jobj (encObjWith Json.jstr (sortByKey ss))

/-- Modelled from the spec: the canonical document body util.JSONEncoder
(module util, not under src/) emits for a blueprint, as the spec describes
the serializer (sections 4.5 and 6): a JSON object with sorted keys holding
exactly the top-level keys present in the underlying mapping.  The five
known keys are already listed here in sorted order. -/
def encodeFields (b : Blueprint) : List (String × Json) :=
  (match b.arch with
    | none => []
    | some a => [("arch", match a with | none => Json.jnull | some s => Json.jstr s)])
  ++ (match b.files with | none => [] | some fs => [("files", encFiles fs)])
  ++ (match b.packages with | none => [] | some ps => [("packages", encPkgs ps)])
  ++ (match b.services with | none => [] | some sv => [("services", encSvcs sv)])
  ++ (match b.sources with | none => [] | some ss => [("sources", encSrcs ss)])

/-- The serialized document dumps returns: cleanup, then canonical encode. -/
def dumpsDoc (b : Blueprint) : List (String × Json) :=
  encodeFields (dumpsState b)

/-- Decode a JSON string. -/
def decStr : Json → Option String
  | Json.jstr s => some s
  | _ => none

/-- Decode each element of a JSON list. -/
def decList {β : Type} (dv : Json → Option β) : List Json → Option (List β)
  | [] => some []
  | j :: js => do
    let v ← dv j
    let vs ← decList dv js
    pure (v :: vs)

/-- Decode each value of a parsed JSON object body. -/
def decPairs {β : Type} (dv : Json → Option β) : List (String × Json) → Option (AList β)
  | [] => some []
  | p :: ps => do
    let v ← dv p.2
    let vs ← decPairs dv ps
    pure ((p.1, v) :: vs)

/-- Decode a JSON array of strings. -/
def decStrList : Json → Option (List String)
  | Json.jarr l => decList decStr l
  | _ => none

/-- Decode a file metadata record. -/
def decMeta : Json → Option FileMeta
  | Json.jobj l => decPairs decStr l
  | _ => none

/-- Decode the files mapping. -/
def decFiles : Json → Option (AList FileMeta)
  | Json.jobj l => decPairs decMeta l
  | _ => none

/-- Decode a manager-to-name-list mapping (packages, service packages). -/
def decPkgsInner : Json → Option (AList (List String))
  | Json.jobj l => decPairs decStrList l
  | _ => none

/-- Decode the package map. -/
def decPkgs : Json → Option PkgMap
  | Json.jobj l => decPairs decPkgsInner l
  | _ => none

/-- Decode the entries of one service dependency record. -/
def decDepsList : SvcDeps → List (String × Json) → Option SvcDeps
  | d, [] => some d
  | d, p :: ps =>
    if p.1 = "files" then
      (decStrList p.2).bind (fun v => decDepsList { d with dfiles := some v } ps)
    else if p.1 = "packages" then
      (decPkgsInner p.2).bind (fun v => decDepsList { d with dpackages := some v } ps)
    else if p.1 = "sources" then
      (decStrList p.2).bind (fun v => decDepsList { d with dsources := some v } ps)
    else none

/-- Decode one service dependency record. -/
def decDeps : Json → Option SvcDeps
  | Json.jobj l => decDepsList {} l
  | _ => none

/-- Decode the service dict of one service manager. -/
def decSvcInner : Json → Option (AList SvcDeps)
  | Json.jobj sl => decPairs decDeps sl
  | _ => none

/-- Decode the services mapping. -/
def decSvcs : Json → Option SvcMap
  | Json.jobj l => decPairs decSvcInner l
  | _ => none

/-- Decode the sources mapping. -/
def decSrcs : Json → Option (AList String)
  | Json.jobj l => decPairs decStr l
  | _ => none

/-- Deserialization of one top-level entry: Blueprint(name) json.loads the
stored document and wraps the resulting dict, so each recognized top-level
entry becomes the corresponding field of the data model. -/
def decEntry (b : Blueprint) (p : String × Json) : Option Blueprint :=
  if p.1 = "arch" then
    match p.2 with
    | Json.jnull => some { b with arch := some none }
    | Json.jstr s => some { b with arch := some (some s) }
    | _ => none
  else if p.1 = "files" then (decFiles p.2).map (fun v => { b with files := some v })
  else if p.1 = "packages" then (decPkgs p.2).map (fun v => { b with packages := some v })
  else if p.1 = "services" then (decSvcs p.2).map (fun v => { b with services := some v })
  else if p.1 = "sources" then (decSrcs p.2).map (fun v => { b with sources := some v })
  else none

/-- Fold the top-level entries into a fresh data model value. -/
def decEntries (b : Blueprint) : List (String × Json) → Option Blueprint
  | [] => some b
  | p :: ps => (decEntry b p).bind (fun b1 => decEntries b1 ps)

/-- Deserialize a document body into a data model value. -/
def decodeFields (l : List (String × Json)) : Option Blueprint :=
  decEntries {} l

/-- Serialize then deserialize. -/
def roundTrip (b : Blueprint) : Option Blueprint :=
  decodeFields (dumpsDoc b)

/-! ## Canonical (key-sorted) form, the representative of dict equality -/

/-- Sort a file record mapping and each record inside it. -/
def canonFiles (fs : AList FileMeta) : AList FileMeta :=
  sortByKey (fs.map (fun p => (p.1, sortByKey p.2)))

/-- Sort the package map at both dict levels (version lists keep order). -/
def canonPkgs (ps : PkgMap) : PkgMap :=
  sortByKey (ps.map (fun p => (p.1, sortByKey p.2)))

/-- Sort the inner dict of one service dependency record. -/
def canonDeps (d : SvcDeps) : SvcDeps :=
  { d with dpackages := d.dpackages.map sortByKey }

/-- Sort the services mapping at both dict levels and inside each record. -/
def canonSvcs (sv : SvcMap) : SvcMap :=
  sortByKey (sv.map (fun p => (p.1, sortByKey (p.2.map (fun q => (q.1, canonDeps q.2))))))

/-- Canonical form of a blueprint: every dict sorted by key.  Python dict
equality ignores key order, so two blueprints are deep-equal as Python
values exactly when their canonical forms coincide. -/
def canonBp (b : Blueprint) : Blueprint :=
  { arch := b.arch
    files := b.files.map canonFiles
    packages := b.packages.map canonPkgs
    services := b.services.map canonSvcs
    sources := b.sources.map sortByKey }

/-- Modelled from the spec: normalization as claim C8 words it, with all
empty optional containers (the four top-level containers and a null arch)
removed.  Stated only to compare the code against claim C8. -/
def specNormalize (b : Blueprint) : Blueprint :=
  { arch := if b.arch = some none then none else b.arch
    files := if b.files = some [] then none else b.files
    packages := if b.packages = some [] then none else b.packages
    services := if b.services = some [] then none else b.services
    sources := if b.sources = some [] then none else b.sources }

/-! ## Predicates and sample data used to state the claims -/

/-- One lazily initialised field after an operation: either untouched, or it
was absent and the operation created it holding the empty default. -/
def optTouch {β : Type} (x y : Option (List β)) : Prop :=
  y = x ∨ (x = none ∧ y = some [])

/-- The operand frame of subtraction: all existing content is intact, and at
most the absent container keys were created empty by lazy property reads. -/
def Touchy (x y : Blueprint) : Prop :=
  y.arch = x.arch ∧ optTouch x.files y.files ∧ optTouch x.packages y.packages
    ∧ optTouch x.services y.services ∧ optTouch x.sources y.sources

/-- The (package, version) pairs of the package callbacks in a trace. -/
def pkgPairs (tr : List PkgEvent) : List (String × String) :=
  tr.filterMap (fun e => match e with | PkgEvent.pkgV _ p v => some (p, v) | _ => none)

/-- Lexicographic order on (package, version) pairs. -/
def lexLeB (x y : String × String) : Bool :=
  strLt x.1 y.1 || (x.1 == y.1 && strLe x.2 y.2)

/-- Boolean pairwise check of a relation along a list. -/
def pairwiseB {α : Type} (r : α → α → Bool) : List α → Bool
  | [] => true
  | x :: xs => xs.all (r x) && pairwiseB r xs

/-- c is a sub-manager the walk of ps recurses into from manager m. -/
def childRel (ps : PkgMap) (c m : String) : Prop :=
  c ∈ childrenOf ps m

/-- The recursive package walk from the two roots finishes at some depth. -/
def walkTerminates (ps : PkgMap) : Prop :=
  ∃ n, (walkTop ps n).isSome

/-- Is a JSON value the empty object (an empty container in the document)? -/
def isEmptyObj : Json → Bool
  | Json.jobj [] => true
  | _ => false

/-- The arch field counts as unset when the key is absent or holds null. -/
def archUnset (b : Blueprint) : Prop :=
  b.arch = none ∨ b.arch = some none

/-- Sample: the blueprint holding exactly packages, apt, curl, version 7.1
(the scenario of claim C4 and the spec, section 8). -/
def aptCurl : Blueprint :=
  { packages := some [("apt", [("curl", ["7.1"])])] }

/-- Sample: a blueprint whose only content is one file with an empty
metadata record. -/
def vFileEmpty : Blueprint :=
  { files := some [("/a", [])] }

/-- Sample: a blueprint whose services key is present and empty. -/
def svcEmptyBp : Blueprint :=
  { services := some [] }

/-- Sample: a cyclic manager hierarchy in which apt and yum each record the
other as one of their packages, so each walks into the other. -/
def cycPs : PkgMap :=
  [("apt", [("yum", ["1"])]), ("yum", [("apt", ["1"])])]

/-- Sample: a result state in which rubygems1.9 is still a manager key, as
walked by pass 1 on the triple (apt, rubygems1.9, 1.9.1). -/
def pass1Cex : PkgMap :=
  [("apt", [("rubygems1.9", ["1.9.1"])]), ("rubygems1.9", [("g", ["1"])])]

/-- Sample: a blueprint with a null arch entry and empty files, packages,
services and sources containers all present. -/
def allEmptyBp : Blueprint :=
  { arch := some none, files := some [], packages := some []
    services := some [], sources := some [] }

/-! ## Order lemmas for the key comparison -/

theorem charListLt_irrefl : ∀ l : List Char, charListLt l l = false
  | [] => rfl
  | c :: cs => by simp [charListLt, charListLt_irrefl cs]

theorem charListLt_asymm : ∀ a b : List Char,
    charListLt a b = true → charListLt b a = false
  | [], [], h => Bool.noConfusion h
  | [], _ :: _, _ => rfl
  | _ :: _, [], h => Bool.noConfusion h
  | c :: cs, d :: ds, h => by
    simp only [charListLt] at h ⊢
    by_cases h1 : c.toNat < d.toNat
    · have h2 : ¬ d.toNat < c.toNat := by omega
      simp [h1, h2]
    · by_cases h2 : d.toNat < c.toNat
      · rw [if_neg h1, if_pos h2] at h
        exact Bool.noConfusion h
      · rw [if_neg h1, if_neg h2] at h
        rw [if_neg h2, if_neg h1]
        exact charListLt_asymm cs ds h

theorem charListLt_false_trans : ∀ a b c : List Char,
    charListLt b a = false → charListLt c b = false → charListLt c a = false
  | [], _, [], _, _ => rfl
  | [], _, _ :: _, _, _ => rfl
  | _ :: _, [], [], h1, _ => Bool.noConfusion h1
  | _ :: _, [], _ :: _, h1, _ => Bool.noConfusion h1
  | _ :: _, _ :: _, [], _, h2 => Bool.noConfusion h2
  | x :: xs, y :: ys, z :: zs, h1, h2 => by
    simp only [charListLt] at h1 h2 ⊢
    by_cases hyx : y.toNat < x.toNat
    · rw [if_pos hyx] at h1
      exact Bool.noConfusion h1
    · by_cases hzy : z.toNat < y.toNat
      · rw [if_pos hzy] at h2
        exact Bool.noConfusion h2
      · have hzx : ¬ z.toNat < x.toNat := by omega
        rw [if_neg hzx]
        by_cases hxz : x.toNat < z.toNat
        · rw [if_pos hxz]
        · have hxy : ¬ x.toNat < y.toNat := by omega
          have hyz : ¬ y.toNat < z.toNat := by omega
          rw [if_neg hyx, if_neg hxy] at h1
          rw [if_neg hzy, if_neg hyz] at h2
          rw [if_neg hxz]
          exact charListLt_false_trans xs ys zs h1 h2

theorem strLe_refl (s : String) : strLe s s = true := by
  simp [strLe, charListLt_irrefl]

theorem strLe_of_not_le {s t : String} (h : strLe s t = false) : strLe t s = true := by
  simp only [strLe, Bool.not_eq_false'] at h
  simp [strLe, charListLt_asymm _ _ h]

theorem strLe_trans {a b c : String} (h1 : strLe a b = true) (h2 : strLe b c = true) :
    strLe a c = true := by
  simp only [strLe, Bool.not_eq_true', Bool.not_eq_false'] at h1 h2 ⊢
  exact charListLt_false_trans _ _ _ h1 h2

/-! ## Association list lemmas -/

theorem lookupA_append {β : Type} (l1 l2 : AList β) (k : String) :
    lookupA (l1 ++ l2) k =
      match lookupA l1 k with
      | some v => some v
      | none => lookupA l2 k := by
  induction l1 with
  | nil => simp [lookupA]
  | cons p ps ih =>
    by_cases h : p.1 = k
    · simp [lookupA, h]
    · simp [lookupA, h, ih]

theorem lookupA_map_set {β : Type} (l : AList β) (k : String) (v : β)
    (h : keysMem l k = true) :
    lookupA (l.map (fun p => if p.1 = k then (k, v) else p)) k = some v := by
  induction l with
  | nil => exact absurd h (by simp [keysMem, lookupA])
  | cons p ps ih =>
    by_cases hp : p.1 = k
    · simp [lookupA, hp]
    · have hm : keysMem ps k = true := by
        simpa [keysMem, lookupA, hp] using h
      simp [lookupA, hp, ih hm]

theorem lookupA_setKey_self {β : Type} (l : AList β) (k : String) (v : β) :
    lookupA (setKey l k v) k = some v := by
  unfold setKey
  by_cases h : keysMem l k
  · rw [if_pos h]
    exact lookupA_map_set l k v h
  · have hn : lookupA l k = none := by
      cases hl : lookupA l k with
      | none => rfl
      | some w => exact absurd (by simp [keysMem, hl]) h
    rw [if_neg h, lookupA_append, hn]
    simp [lookupA]

theorem lookupA_setKey_ne {β : Type} (l : AList β) (k k' : String) (v : β)
    (h : k' ≠ k) : lookupA (setKey l k v) k' = lookupA l k' := by
  have hkk' : ¬ (k = k') := fun hh => h hh.symm
  unfold setKey
  by_cases hm : keysMem l k
  · rw [if_pos hm]
    clear hm
    induction l with
    | nil => rfl
    | cons p ps ih =>
      by_cases hp : p.1 = k
      · have hp' : ¬ (p.1 = k') := by rw [hp]; exact hkk'
        simp only [List.map_cons, if_pos hp, lookupA, if_neg hkk', if_neg hp']
        exact ih
      · simp only [List.map_cons, if_neg hp, lookupA]
        by_cases hp' : p.1 = k'
        · rw [if_pos hp', if_pos hp']
        · rw [if_neg hp', if_neg hp']
          exact ih
  · rw [if_neg hm, lookupA_append]
    cases hl : lookupA l k' with
    | some w => simp
    | none => simp [lookupA, if_neg hkk']

theorem lookupA_eraseKey_self {β : Type} (l : AList β) (k : String) :
    lookupA (eraseKey l k) k = none := by
  induction l with
  | nil => rfl
  | cons p ps ih =>
    by_cases hp : p.1 = k
    · simpa [eraseKey, List.filter_cons, hp] using ih
    · simpa [eraseKey, List.filter_cons, hp, lookupA] using ih

theorem lookupA_eraseKey_ne {β : Type} (l : AList β) (k k' : String)
    (h : k' ≠ k) : lookupA (eraseKey l k) k' = lookupA l k' := by
  induction l with
  | nil => rfl
  | cons p ps ih =>
    by_cases hp : p.1 = k
    · have hp' : ¬ (p.1 = k') := by rw [hp]; exact fun hh => h hh.symm
      simpa [eraseKey, List.filter_cons, hp, lookupA, hp', Ne.symm h] using ih
    · by_cases hp' : p.1 = k'
      · simp [eraseKey, List.filter_cons, hp, lookupA, hp', h]
      · simpa [eraseKey, List.filter_cons, hp, lookupA, hp'] using ih

theorem keysMem_setKey_self {β : Type} (l : AList β) (k : String) (v : β) :
    keysMem (setKey l k v) k = true := by
  simp [keysMem, lookupA_setKey_self]

theorem keysMem_setKey_ne {β : Type} (l : AList β) (k k' : String) (v : β)
    (h : k' ≠ k) : keysMem (setKey l k v) k' = keysMem l k' := by
  simp [keysMem, lookupA_setKey_ne l k k' v h]

/-! ## Sorting lemmas -/

theorem mem_insSorted {β : Type} (p x : String × β) :
    ∀ l : AList β, x ∈ insSorted p l ↔ x = p ∨ x ∈ l
  | [] => by simp [insSorted]
  | q :: qs => by
    unfold insSorted
    by_cases hle : strLe p.1 q.1
    · rw [if_pos hle]
      simp [List.mem_cons]
    · rw [if_neg hle]
      simp only [List.mem_cons, mem_insSorted p x qs]
      tauto

theorem insSorted_ne_nil {β : Type} (p : String × β) (l : AList β) :
    insSorted p l ≠ [] := by
  cases l with
  | nil => simp [insSorted]
  | cons q qs =>
    unfold insSorted
    split <;> simp

theorem sortByKey_cons {β : Type} (a : String × β) (l : AList β) :
    sortByKey (a :: l) = insSorted a (sortByKey l) := rfl

theorem sortByKey_eq_nil_iff {β : Type} (l : AList β) : sortByKey l = [] ↔ l = [] := by
  cases l with
  | nil => simp [sortByKey]
  | cons a l => simp [sortByKey_cons, insSorted_ne_nil]

theorem pairwise_insSorted {β : Type} (p : String × β) (l : AList β)
    (h : l.Pairwise (fun x y => strLe x.1 y.1 = true)) :
    (insSorted p l).Pairwise (fun x y => strLe x.1 y.1 = true) := by
  induction l with
  | nil => simp [insSorted]
  | cons q qs ih =>
    unfold insSorted
    by_cases hle : strLe p.1 q.1
    · rw [if_pos hle]
      refine List.Pairwise.cons ?_ h
      intro r hr
      rcases List.mem_cons.mp hr with rfl | hr'
      · exact hle
      · exact strLe_trans hle (List.rel_of_pairwise_cons h hr')
    · rw [if_neg hle]
      have hq : strLe q.1 p.1 = true :=
        strLe_of_not_le (by simpa using hle)
      refine List.Pairwise.cons ?_ (ih (List.Pairwise.of_cons h))
      intro r hr
      rcases (mem_insSorted p r qs).mp hr with rfl | hr'
      · exact hq
      · exact List.rel_of_pairwise_cons h hr'

theorem sorted_sortByKey {β : Type} (l : AList β) :
    (sortByKey l).Pairwise (fun x y => strLe x.1 y.1 = true) := by
  induction l with
  | nil => simp [sortByKey]
  | cons a l ih => exact pairwise_insSorted a _ ih

theorem sortByKey_eq_self {β : Type} (l : AList β)
    (h : l.Pairwise (fun x y => strLe x.1 y.1 = true)) : sortByKey l = l := by
  induction l with
  | nil => rfl
  | cons a l ih =>
    rw [sortByKey_cons, ih (List.Pairwise.of_cons h)]
    cases l with
    | nil => rfl
    | cons b bs =>
      have hab : strLe a.1 b.1 = true :=
        List.rel_of_pairwise_cons h (List.mem_cons_self b bs)
      unfold insSorted
      rw [if_pos hab]

theorem sortByKey_idem {β : Type} (l : AList β) :
    sortByKey (sortByKey l) = sortByKey l :=
  sortByKey_eq_self _ (sorted_sortByKey l)

theorem insSorted_map {β γ : Type} (f : β → γ) (p : String × β) :
    ∀ l : AList β,
      insSorted (p.1, f p.2) (l.map (fun q => (q.1, f q.2)))
        = (insSorted p l).map (fun q => (q.1, f q.2))
  | [] => rfl
  | q :: qs => by
    by_cases hle : strLe p.1 q.1
    · show insSorted (p.1, f p.2) ((q.1, f q.2) :: qs.map _) = _
      unfold insSorted
      rw [if_pos hle, if_pos hle]
      simp
    · show insSorted (p.1, f p.2) ((q.1, f q.2) :: qs.map _) = _
      unfold insSorted
      rw [if_neg hle, if_neg hle]
      rw [List.map_cons]
      rw [insSorted_map f p qs]

theorem sortByKey_map {β γ : Type} (f : β → γ) (l : AList β) :
    sortByKey (l.map (fun q => (q.1, f q.2)))
      = (sortByKey l).map (fun q => (q.1, f q.2)) := by
  induction l with
  | nil => rfl
  | cons a l ih =>
    rw [List.map_cons, sortByKey_cons, sortByKey_cons, ih, insSorted_map]

/-! ## Decoding inverts encoding -/

theorem decList_map_some {α β : Type} (dv : Json → Option β) (enc : α → Json)
    (g : α → β) (H : ∀ a, dv (enc a) = some (g a)) :
    ∀ l : List α, decList dv (l.map enc) = some (l.map g)
  | [] => rfl
  | a :: as => by simp [decList, H a, decList_map_some dv enc g H as]

theorem decPairs_map_some {β γ : Type} (dv : Json → Option γ) (enc : β → Json)
    (g : β → γ) (H : ∀ b, dv (enc b) = some (g b)) :
    ∀ l : AList β,
      decPairs dv (l.map (fun p => (p.1, enc p.2)))
        = some (l.map (fun p => (p.1, g p.2)))
  | [] => rfl
  | p :: ps => by simp [decPairs, H p.2, decPairs_map_some dv enc g H ps]

theorem decPairs_encObjWith {β γ : Type} (dv : Json → Option γ) (enc : β → Json)
    (g : β → γ) (H : ∀ b, dv (enc b) = some (g b)) (l : AList β) :
    decPairs dv (encObjWith enc l) = some (l.map (fun p => (p.1, g p.2))) := by
  unfold encObjWith
  exact decPairs_map_some dv enc g H l

theorem decPairs_encObjWith_id {β : Type} (dv : Json → Option β) (enc : β → Json)
    (H : ∀ b, dv (enc b) = some b) (l : AList β) :
    decPairs dv (encObjWith enc l) = some l := by
  have h := decPairs_encObjWith dv enc id H l
  simpa using h

theorem decStrList_encStrArr (l : List String) :
    decStrList (encStrArr l) = some l := by
  show decList decStr (l.map Json.jstr) = some l
  rw [decList_map_some decStr Json.jstr id (fun a => rfl)]
  simp

theorem decMeta_encMeta (m : FileMeta) : decMeta (encMeta m) = some (sortByKey m) := by
  show decPairs decStr (encObjWith Json.jstr (sortByKey m)) = some (sortByKey m)
  exact decPairs_encObjWith_id decStr Json.jstr (fun b => rfl) _

theorem decFiles_encFiles (fs : AList FileMeta) :
    decFiles (encFiles fs) = some (canonFiles fs) := by
  show decPairs decMeta (encObjWith encMeta (sortByKey fs)) = some (canonFiles fs)
  rw [decPairs_encObjWith decMeta encMeta sortByKey decMeta_encMeta]
  unfold canonFiles
  rw [sortByKey_map]

theorem decPkgsInner_encPkgsInner (m : AList (List String)) :
    decPkgsInner (encPkgsInner m) = some (sortByKey m) := by
  show decPairs decStrList (encObjWith encStrArr (sortByKey m)) = some (sortByKey m)
  exact decPairs_encObjWith_id decStrList encStrArr decStrList_encStrArr _

theorem decPkgs_encPkgs (ps : PkgMap) : decPkgs (encPkgs ps) = some (canonPkgs ps) := by
  show decPairs decPkgsInner (encObjWith encPkgsInner (sortByKey ps)) = some (canonPkgs ps)
  rw [decPairs_encObjWith decPkgsInner encPkgsInner sortByKey decPkgsInner_encPkgsInner]
  unfold canonPkgs
  rw [sortByKey_map]

theorem decDeps_encDeps (d : SvcDeps) : decDeps (encDeps d) = some (canonDeps d) := by
  rcases d with ⟨df, dp, dsr⟩
  cases df <;> cases dp <;> cases dsr <;>
    simp [encDeps, decDeps, decDepsList, decStrList_encStrArr,
      decPkgsInner_encPkgsInner, canonDeps]

theorem decSvcInner_encSvcInner (sl : AList SvcDeps) :
    decSvcInner (encSvcInner sl)
      = some ((sortByKey sl).map (fun q => (q.1, canonDeps q.2))) := by
  show decPairs decDeps (encObjWith encDeps (sortByKey sl)) = _
  rw [decPairs_encObjWith decDeps encDeps canonDeps decDeps_encDeps]

theorem decSvcs_encSvcs (sv : SvcMap) : decSvcs (encSvcs sv) = some (canonSvcs sv) := by
  show decPairs decSvcInner (encObjWith encSvcInner (sortByKey sv)) = some (canonSvcs sv)
  rw [decPairs_encObjWith decSvcInner encSvcInner
    (fun sl => (sortByKey sl).map (fun q => (q.1, canonDeps q.2)))
    decSvcInner_encSvcInner]
  unfold canonSvcs
  rw [sortByKey_map (fun x => sortByKey (x.map (fun q => (q.1, canonDeps q.2)))) sv]
  simp only [sortByKey_map]

theorem decSrcs_encSrcs (ss : AList String) :
    decSrcs (encSrcs ss) = some (sortByKey ss) := by
  show decPairs decStr (encObjWith Json.jstr (sortByKey ss)) = some (sortByKey ss)
  exact decPairs_encObjWith_id decStr Json.jstr (fun b => rfl) _

theorem decEntries_append (l1 : List (String × Json)) :
    ∀ (b : Blueprint) (l2 : List (String × Json)),
      decEntries b (l1 ++ l2) = (decEntries b l1).bind (fun b1 => decEntries b1 l2) := by
  induction l1 with
  | nil => intro b l2; simp [decEntries]
  | cons p ps ih =>
    intro b l2
    simp only [List.cons_append, decEntries]
    cases decEntry b p with
    | none => simp
    | some b1 => simp [ih b1 l2]

theorem decEntries_arch (b : Blueprint) (a : Option String) (rest : List (String × Json)) :
    decEntries b
        (("arch", match a with | none => Json.jnull | some s => Json.jstr s) :: rest)
      = decEntries { b with arch := some a } rest := by
  cases a <;> simp [decEntries, decEntry]

theorem decEntries_files (b : Blueprint) (fs : AList FileMeta) (rest : List (String × Json)) :
    decEntries b (("files", encFiles fs) :: rest)
      = decEntries { b with files := some (canonFiles fs) } rest := by
  simp [decEntries, decEntry, decFiles_encFiles]

theorem decEntries_pkgs (b : Blueprint) (ps : PkgMap) (rest : List (String × Json)) :
    decEntries b (("packages", encPkgs ps) :: rest)
      = decEntries { b with packages := some (canonPkgs ps) } rest := by
  simp [decEntries, decEntry, decPkgs_encPkgs]

theorem decEntries_svcs (b : Blueprint) (sv : SvcMap) (rest : List (String × Json)) :
    decEntries b (("services", encSvcs sv) :: rest)
      = decEntries { b with services := some (canonSvcs sv) } rest := by
  simp [decEntries, decEntry, decSvcs_encSvcs]

theorem decEntries_srcs (b : Blueprint) (ss : AList String) (rest : List (String × Json)) :
    decEntries b (("sources", encSrcs ss) :: rest)
      = decEntries { b with sources := some (sortByKey ss) } rest := by
  simp [decEntries, decEntry, decSrcs_encSrcs]

theorem decEntries_nil (b : Blueprint) : decEntries b [] = some b := rfl

theorem decodeFields_encodeFields (x : Blueprint) :
    decodeFields (encodeFields x) = some (canonBp x) := by
  rcases x with ⟨xa, xf, xp, xsv, xsr⟩
  unfold decodeFields encodeFields
  cases xa <;> cases xf <;> cases xp <;> cases xsv <;> cases xsr <;>
    simp only [List.cons_append, List.nil_append, List.append_nil,
      List.singleton_append, decEntries_arch, decEntries_files, decEntries_pkgs,
      decEntries_svcs, decEntries_srcs, decEntries_nil] <;>
    simp [canonBp]

/-! ## The canonical form is a fixed point of cleanup and encoding -/

theorem canonFiles_eq_nil_iff (fs : AList FileMeta) : canonFiles fs = [] ↔ fs = [] := by
  unfold canonFiles
  rw [sortByKey_eq_nil_iff]
  simp

theorem canonPkgs_eq_nil_iff (ps : PkgMap) : canonPkgs ps = [] ↔ ps = [] := by
  unfold canonPkgs
  rw [sortByKey_eq_nil_iff]
  simp

theorem dumpsState_arch_ne (b : Blueprint) : (dumpsState b).arch ≠ some none := by
  by_cases h : b.arch = some none <;> simp [dumpsState, h]

theorem dumpsState_files_ne (b : Blueprint) : (dumpsState b).files ≠ some [] := by
  by_cases h : b.files = some [] <;> simp [dumpsState, h]

theorem dumpsState_pkgs_ne (b : Blueprint) : (dumpsState b).packages ≠ some [] := by
  by_cases h : b.packages = some [] <;> simp [dumpsState, h]

theorem dumpsState_srcs_ne (b : Blueprint) : (dumpsState b).sources ≠ some [] := by
  by_cases h : b.sources = some [] <;> simp [dumpsState, h]

theorem dumpsState_eq_self (x : Blueprint) (ha : x.arch ≠ some none)
    (hf : x.files ≠ some []) (hp : x.packages ≠ some [])
    (hs : x.sources ≠ some []) : dumpsState x = x := by
  unfold dumpsState
  rw [if_neg ha, if_neg hf, if_neg hp, if_neg hs]

theorem dumpsState_canon_dumpsState (b : Blueprint) :
    dumpsState (canonBp (dumpsState b)) = canonBp (dumpsState b) := by
  apply dumpsState_eq_self
  · show (dumpsState b).arch ≠ some none
    exact dumpsState_arch_ne b
  · show (dumpsState b).files.map canonFiles ≠ some []
    cases hf : (dumpsState b).files with
    | none => simp
    | some fs =>
      simp only [Option.map_some']
      intro hc
      have : canonFiles fs = [] := by
        injection hc
      rw [canonFiles_eq_nil_iff] at this
      exact dumpsState_files_ne b (by rw [hf, this])
  · show (dumpsState b).packages.map canonPkgs ≠ some []
    cases hp : (dumpsState b).packages with
    | none => simp
    | some ps =>
      simp only [Option.map_some']
      intro hc
      have : canonPkgs ps = [] := by
        injection hc
      rw [canonPkgs_eq_nil_iff] at this
      exact dumpsState_pkgs_ne b (by rw [hp, this])
  · show (dumpsState b).sources.map sortByKey ≠ some []
    cases hs : (dumpsState b).sources with
    | none => simp
    | some ss =>
      simp only [Option.map_some']
      intro hc
      have : sortByKey ss = [] := by
        injection hc
      rw [sortByKey_eq_nil_iff] at this
      exact dumpsState_srcs_ne b (by rw [hs, this])

theorem encMeta_sort (m : FileMeta) : encMeta (sortByKey m) = encMeta m := by
  unfold encMeta
  rw [sortByKey_idem]

theorem encFiles_canon (fs : AList FileMeta) : encFiles (canonFiles fs) = encFiles fs := by
  unfold encFiles canonFiles encObjWith
  rw [sortByKey_idem, sortByKey_map]
  simp only [List.map_map, Function.comp_def]
  simp only [encMeta_sort]

theorem encPkgsInner_sort (m : AList (List String)) :
    encPkgsInner (sortByKey m) = encPkgsInner m := by
  unfold encPkgsInner
  rw [sortByKey_idem]

theorem encPkgs_canon (ps : PkgMap) : encPkgs (canonPkgs ps) = encPkgs ps := by
  unfold encPkgs canonPkgs encObjWith
  rw [sortByKey_idem, sortByKey_map]
  simp only [List.map_map, Function.comp_def]
  simp only [encPkgsInner_sort]

theorem encDeps_canon (d : SvcDeps) : encDeps (canonDeps d) = encDeps d := by
  rcases d with ⟨df, dp, dsr⟩
  cases dp <;> simp [encDeps, canonDeps, encPkgsInner_sort]

theorem encSvcInner_canonList (sl : AList SvcDeps) :
    encSvcInner (sortByKey (sl.map (fun q => (q.1, canonDeps q.2)))) = encSvcInner sl := by
  unfold encSvcInner encObjWith
  rw [sortByKey_idem, sortByKey_map]
  simp only [List.map_map, Function.comp_def]
  simp only [encDeps_canon]

theorem encSvcs_canon (sv : SvcMap) : encSvcs (canonSvcs sv) = encSvcs sv := by
  unfold encSvcs canonSvcs encObjWith
  rw [sortByKey_idem,
    sortByKey_map (fun x => sortByKey (x.map (fun q => (q.1, canonDeps q.2)))) sv]
  simp only [List.map_map, Function.comp_def]
  simp only [encSvcInner_canonList]

theorem encSrcs_sort (ss : AList String) : encSrcs (sortByKey ss) = encSrcs ss := by
  unfold encSrcs
  rw [sortByKey_idem]

theorem encodeFields_canon (x : Blueprint) :
    encodeFields (canonBp x) = encodeFields x := by
  rcases x with ⟨xa, xf, xp, xsv, xsr⟩
  cases xf <;> cases xp <;> cases xsv <;> cases xsr <;>
    simp [encodeFields, canonBp, encFiles_canon, encPkgs_canon, encSvcs_canon,
      encSrcs_sort]

theorem dumpsDoc_canon_dumpsState (b : Blueprint) :
    dumpsDoc (canonBp (dumpsState b)) = dumpsDoc b := by
  unfold dumpsDoc
  rw [dumpsState_canon_dumpsState, encodeFields_canon]

/-! ## The shape of the serialized document -/

theorem lookupA_encodeFields_arch (x : Blueprint) :
    lookupA (encodeFields x) "arch"
      = (x.arch.map (fun a => match a with | none => Json.jnull | some s => Json.jstr s)) := by
  rcases x with ⟨xa, xf, xp, xsv, xsr⟩
  cases xa <;> cases xf <;> cases xp <;> cases xsv <;> cases xsr <;>
    simp [encodeFields, lookupA]

theorem lookupA_encodeFields_files (x : Blueprint) :
    lookupA (encodeFields x) "files" = x.files.map encFiles := by
  rcases x with ⟨xa, xf, xp, xsv, xsr⟩
  cases xa <;> cases xf <;> cases xp <;> cases xsv <;> cases xsr <;>
    simp [encodeFields, lookupA]

theorem lookupA_encodeFields_pkgs (x : Blueprint) :
    lookupA (encodeFields x) "packages" = x.packages.map encPkgs := by
  rcases x with ⟨xa, xf, xp, xsv, xsr⟩
  cases xa <;> cases xf <;> cases xp <;> cases xsv <;> cases xsr <;>
    simp [encodeFields, lookupA]

theorem lookupA_encodeFields_srcs (x : Blueprint) :
    lookupA (encodeFields x) "sources" = x.sources.map encSrcs := by
  rcases x with ⟨xa, xf, xp, xsv, xsr⟩
  cases xa <;> cases xf <;> cases xp <;> cases xsv <;> cases xsr <;>
    simp [encodeFields, lookupA]

theorem encFiles_eq_empty_iff (fs : AList FileMeta) :
    encFiles fs = Json.jobj [] ↔ fs = [] := by
  unfold encFiles encObjWith
  simp [sortByKey_eq_nil_iff]

theorem encPkgs_eq_empty_iff (ps : PkgMap) :
    encPkgs ps = Json.jobj [] ↔ ps = [] := by
  unfold encPkgs encObjWith
  simp [sortByKey_eq_nil_iff]

theorem encSrcs_eq_empty_iff (ss : AList String) :
    encSrcs ss = Json.jobj [] ↔ ss = [] := by
  unfold encSrcs encObjWith
  simp [sortByKey_eq_nil_iff]

/-! ## ensureKey lemmas -/

theorem keysMem_ensureKey_self (b : PkgMap) (m : String) :
    keysMem (ensureKey b m) m = true := by
  unfold ensureKey
  by_cases h : keysMem b m
  · rw [if_pos h]
    exact h
  · rw [if_neg h]
    have hn : lookupA b m = none := by
      cases hl : lookupA b m with
      | none => rfl
      | some w => exact absurd (by simp [keysMem, hl]) h
    simp [keysMem, lookupA_append, hn, lookupA]

theorem lookupA_ensureKey_ne (b : PkgMap) (m m' : String) (h : m' ≠ m) :
    lookupA (ensureKey b m) m' = lookupA b m' := by
  unfold ensureKey
  by_cases hm : keysMem b m
  · rw [if_pos hm]
  · rw [if_neg hm, lookupA_append]
    have hmm : ¬ (m = m') := fun hh => h hh.symm
    cases hl : lookupA b m' with
    | some w => simp
    | none => simp [lookupA, hmm]

theorem pkgsOf_ensureKey (b : PkgMap) (m : String) :
    pkgsOf (ensureKey b m) m = pkgsOf b m := by
  unfold ensureKey
  by_cases hm : keysMem b m
  · rw [if_pos hm]
  · rw [if_neg hm]
    have hn : lookupA b m = none := by
      cases hl : lookupA b m with
      | none => rfl
      | some w => exact absurd (by simp [keysMem, hl]) hm
    unfold pkgsOf
    rw [lookupA_append, hn]
    simp [lookupA]

/-! ## Claim C1: the first subtraction pass -/

/-- C1, counterexample to the claim as stated: walking the triple
(apt, rubygems1.9, 1.9.1) against a result in which rubygems1.9 is still a
manager key, the code skips the triple because the package is a manager key
PRESENT in the result, whereas the claimed rule (skip only when such a
manager key is already absent, here it is not) would remove the version and
drop the emptied package key. -/
theorem c1_pass1_cex :
    pass1Step pass1Cex "apt" "rubygems1.9" "1.9.1"
      ≠ specPass1Step ["apt", "rubygems1.9"] pass1Cex "apt" "rubygems1.9" "1.9.1" := by
  decide

/-- C1 amended: for a walked triple (m, p, v), pass 1 leaves the result
unchanged when p is currently a manager key present in the result, and when
the manager m lists its own name among its packages in the result; otherwise
it ensures an entry for m exists (the defaultdict read creates it empty when
missing, even when p is then not found), leaves every other manager and
every other package of m untouched, and removes one occurrence of v from
the version list of p under m, dropping the package key when the list end
up empty. -/
theorem c1_pass1_amended (b : PkgMap) (m p v : String) :
    (keysMem b p = true → pass1Step b m p v = b)
      ∧ (keysMem b p = false → keysMem (pkgsOf b m) m = true → pass1Step b m p v = b)
      ∧ (keysMem b p = false → keysMem (pkgsOf b m) m = false →
          keysMem (pass1Step b m p v) m = true
            ∧ (∀ m', m' ≠ m → lookupA (pass1Step b m p v) m' = lookupA b m')
            ∧ (∀ p', p' ≠ p →
                lookupA (pkgsOf (pass1Step b m p v) m) p' = lookupA (pkgsOf b m) p')
            ∧ lookupA (pkgsOf (pass1Step b m p v) m) p
                = (match lookupA (pkgsOf b m) p with
                   | none => none
                   | some vers =>
                     if (vers.erase v).isEmpty then none else some (vers.erase v))) := by
  refine ⟨?_, ?_, ?_⟩
  · intro h1
    unfold pass1Step
    rw [if_pos h1]
  · intro h1 h2
    unfold pass1Step
    rw [if_neg (by simp [h1]), if_pos h2]
  · intro h1 h2
    cases hv : lookupA (pkgsOf b m) p with
    | none =>
      have hstep : pass1Step b m p v = ensureKey b m := by
        simp [pass1Step, h1, h2, pkgsOf_ensureKey, hv]
      rw [hstep]
      refine ⟨keysMem_ensureKey_self b m, ?_, ?_, ?_⟩
      · intro m' hm'
        exact lookupA_ensureKey_ne b m m' hm'
      · intro p' hp'
        rw [pkgsOf_ensureKey]
      · rw [pkgsOf_ensureKey, hv]
    | some vers =>
      by_cases he : (vers.erase v).isEmpty
      · have hstep : pass1Step b m p v
            = setKey (ensureKey b m) m (eraseKey (pkgsOf b m) p) := by
          simp [pass1Step, h1, h2, pkgsOf_ensureKey, hv, he]
        rw [hstep]
        refine ⟨keysMem_setKey_self _ m _, ?_, ?_, ?_⟩
        · intro m' hm'
          rw [lookupA_setKey_ne _ m m' _ hm']
          exact lookupA_ensureKey_ne b m m' hm'
        · intro p' hp'
          unfold pkgsOf
          rw [lookupA_setKey_self]
          simp only [Option.getD_some]
          rw [lookupA_eraseKey_ne _ p p' hp']
        · unfold pkgsOf
          rw [lookupA_setKey_self]
          simp only [Option.getD_some]
          rw [lookupA_eraseKey_self, if_pos he]
      · have hstep : pass1Step b m p v
            = setKey (ensureKey b m) m (setKey (pkgsOf b m) p (vers.erase v)) := by
          simp [pass1Step, h1, h2, pkgsOf_ensureKey, hv, he]
        rw [hstep]
        refine ⟨keysMem_setKey_self _ m _, ?_, ?_, ?_⟩
        · intro m' hm'
          rw [lookupA_setKey_ne _ m m' _ hm']
          exact lookupA_ensureKey_ne b m m' hm'
        · intro p' hp'
          unfold pkgsOf
          rw [lookupA_setKey_self]
          simp only [Option.getD_some]
          rw [lookupA_setKey_ne _ p p' _ hp']
        · unfold pkgsOf
          rw [lookupA_setKey_self]
          simp only [Option.getD_some]
          rw [lookupA_setKey_self, if_neg he]

/-- C1 witness: the amended theorem applied to the triple (apt, curl, 7.1)
against a result holding exactly that package: the guards are false, the
manager entry stays present and the yum manager is untouched. -/
theorem c1_pass1_witness :
    keysMem [("apt", [("curl", ["7.1"])])] "curl" = false
      ∧ keysMem (pkgsOf [("apt", [("curl", ["7.1"])])] "apt") "apt" = false
      ∧ keysMem (pass1Step [("apt", [("curl", ["7.1"])])] "apt" "curl" "7.1") "apt" = true
      ∧ lookupA (pass1Step [("apt", [("curl", ["7.1"])])] "apt" "curl" "7.1") "yum"
          = lookupA [("apt", [("curl", ["7.1"])])] "yum" :=
  ⟨by decide, by decide,
    ((c1_pass1_amended [("apt", [("curl", ["7.1"])])] "apt" "curl" "7.1").2.2
      (by decide) (by decide)).1,
    (((c1_pass1_amended [("apt", [("curl", ["7.1"])])] "apt" "curl" "7.1").2.2
      (by decide) (by decide)).2.1) "yum" (by decide)⟩

/-! ## Claim C4: the curl scenario -/

/-- C4, counterexample to the claim as stated: subtracting the apt-curl
blueprint from itself leaves apt as an emptied manager entry, so the
serialized document still carries the packages key (dumps only removes the
key when the whole packages dict is empty, and it has size one here). -/
theorem c4_scenario_cex :
    (subResult 4 aptCurl aptCurl).map (fun r => keysMem (dumpsDoc r) "packages")
      = some true := by
  decide

/-- C4 amended: serializing the subtraction of the apt-curl blueprint from
itself produces exactly the document whose packages key maps apt to an
empty object. -/
theorem c4_scenario_amended :
    (subResult 4 aptCurl aptCurl).map dumpsDoc
      = some [("packages", Json.jobj [("apt", Json.jobj [])])] := rfl

/-! ## Claim C5: the source walk callbacks -/

/-- C5: walk_sources contradicts its own docstring: with all three source
callbacks supplied and one source tarball recorded, the executed trace
fires before_sources a second time after the enumeration instead of firing
after_sources (source line 424 looks up before_sources again), while the
documented trace ends with after_sources; an absent callback stays a no-op
in both. -/
theorem c5_walk_sources_bug :
    walkSourcesTrace [("/opt/x", "x.tgz")] ⟨true, true, true⟩
        = [SrcEvent.beforeSrcs, SrcEvent.srcItem "/opt/x" "x.tgz", SrcEvent.beforeSrcs]
      ∧ specWalkSourcesTrace [("/opt/x", "x.tgz")] ⟨true, true, true⟩
        = [SrcEvent.beforeSrcs, SrcEvent.srcItem "/opt/x" "x.tgz", SrcEvent.afterSrcs] := by
  exact ⟨rfl, rfl⟩

/-! ## Walk-order lemmas -/

theorem pairwiseB_iff {α : Type} (r : α → α → Bool) (l : List α) :
    pairwiseB r l = true ↔ l.Pairwise (fun a b => r a b = true) := by
  induction l with
  | nil => simp [pairwiseB]
  | cons x xs ih =>
    simp [pairwiseB, List.all_eq_true, ih, List.pairwise_cons]

theorem pkgPairs_pkgEvts (ps : PkgMap) (m : String) :
    pkgPairs (pkgEvts ps m)
      = (mgrItems ps m).foldr (fun pv acc => pv.2.map (fun v => (pv.1, v)) ++ acc) [] := by
  unfold pkgEvts
  generalize mgrItems ps m = items
  induction items with
  | nil => rfl
  | cons pv rest ih =>
    simp only [List.foldr_cons]
    rw [show pkgPairs (pv.2.map (PkgEvent.pkgV m pv.1)
          ++ rest.foldr (fun pv acc => pv.2.map (PkgEvent.pkgV m pv.1) ++ acc) [])
        = pkgPairs (pv.2.map (PkgEvent.pkgV m pv.1))
          ++ pkgPairs (rest.foldr (fun pv acc => pv.2.map (PkgEvent.pkgV m pv.1) ++ acc) [])
      from List.filterMap_append _ _ _]
    rw [ih]
    congr 1
    unfold pkgPairs
    rw [List.filterMap_map]
    exact List.filterMap_eq_map _ ▸ rfl

theorem mem_flat_key (items : AList (List String)) (y : String × String)
    (hy : y ∈ items.foldr (fun pv acc => pv.2.map (fun v => (pv.1, v)) ++ acc) []) :
    ∃ q ∈ items, y.1 = q.1 := by
  induction items with
  | nil => simp at hy
  | cons pv rest ih =>
    simp only [List.foldr_cons, List.mem_append] at hy
    rcases hy with hy | hy
    · obtain ⟨v, _, hv⟩ := List.mem_map.mp hy
      exact ⟨pv, List.mem_cons_self pv rest, by rw [← hv]⟩
    · obtain ⟨q, hq, hq1⟩ := ih hy
      exact ⟨q, List.mem_cons_of_mem pv hq, hq1⟩

theorem pairwise_flat (items : AList (List String))
    (h : items.Pairwise (fun x y => strLe x.1 y.1 = true)) :
    (items.foldr (fun pv acc => pv.2.map (fun v => (pv.1, v)) ++ acc) []).Pairwise
      (fun x y : String × String => strLe x.1 y.1 = true) := by
  induction items with
  | nil => simp
  | cons pv rest ih =>
    simp only [List.foldr_cons]
    apply List.pairwise_append.mpr
    refine ⟨?_, ih (List.Pairwise.of_cons h), ?_⟩
    · apply List.pairwise_of_forall_mem_list
      intro x hx y hy
      obtain ⟨vx, _, hvx⟩ := List.mem_map.mp hx
      obtain ⟨vy, _, hvy⟩ := List.mem_map.mp hy
      rw [← hvx, ← hvy]
      exact strLe_refl pv.1
    · intro x hx y hy
      obtain ⟨vx, _, hvx⟩ := List.mem_map.mp hx
      obtain ⟨q, hq, hyq⟩ := mem_flat_key rest y hy
      rw [← hvx, hyq]
      exact List.rel_of_pairwise_cons h hq

/-! ## Claim C6: order of the package walk -/

/-- C6, counterexample to the claim as stated: with apt holding one package
p whose stored version list is [2, 1], the walk visits the versions in
stored order 2 then 1, so the (package, version) visit sequence of the apt
manager is not in sorted name/version order. -/
theorem c6_walk_order_cex :
    walkFrom [("apt", [("p", ["2", "1"])])] 1 "apt"
        = some [PkgEvent.beforePkgs "apt", PkgEvent.pkgV "apt" "p" "2",
            PkgEvent.pkgV "apt" "p" "1", PkgEvent.afterPkgs "apt"]
      ∧ pairwiseB lexLeB (pkgPairs [PkgEvent.beforePkgs "apt",
            PkgEvent.pkgV "apt" "p" "2", PkgEvent.pkgV "apt" "p" "1",
            PkgEvent.afterPkgs "apt"]) = false := by
  exact ⟨by decide, by decide⟩

/-- C6 amended: the package walk starts from the two roots apt and yum (the
top-level trace is the apt visit followed by the yum visit); a manager visit
fires before_packages, then the package callbacks in sorted package-name
order with each package's versions in stored (not sorted) order, then
after_packages, and only after that the traces of the hosted sub-managers
follow, so every callback of a hosting manager precedes every callback of a
hosted one. -/
theorem c6_walk_order_amended (ps : PkgMap) (n : Nat) :
    (∀ m tr, walkFrom ps (n + 1) m = some tr →
        ∃ rest, walkChildren (walkFrom ps n) (childrenOf ps m) = some rest
          ∧ tr = PkgEvent.beforePkgs m :: pkgEvts ps m ++ PkgEvent.afterPkgs m :: rest
          ∧ (pkgPairs (pkgEvts ps m)).Pairwise (fun x y => strLe x.1 y.1 = true))
      ∧ (∀ tr, walkTop ps n = some tr →
          ∃ ta ty, walkFrom ps n "apt" = some ta ∧ walkFrom ps n "yum" = some ty
            ∧ tr = ta ++ ty) := by
  constructor
  · intro m tr h
    simp only [walkFrom] at h
    obtain ⟨rest, hrest, he⟩ := Option.map_eq_some'.mp h
    refine ⟨rest, hrest, he.symm, ?_⟩
    rw [pkgPairs_pkgEvts]
    apply pairwise_flat
    unfold mgrItems
    exact sorted_sortByKey _
  · intro tr h
    unfold walkTop at h
    cases ha : walkFrom ps n "apt" with
    | none => rw [ha] at h; exact absurd h (by simp)
    | some ta =>
      rw [ha] at h
      cases hy : walkFrom ps n "yum" with
      | none => rw [hy] at h; exact absurd h (by simp)
      | some ty =>
        rw [hy] at h
        exact ⟨ta, ty, rfl, rfl, by simpa using h.symm⟩

/-- C6 witness: the amended theorem applied to the apt-curl package map at
fuel 1, on the apt manager and on the top-level walk. -/
theorem c6_walk_order_witness :
    (∃ rest, walkChildren (walkFrom [("apt", [("curl", ["7.1"])])] 1)
          (childrenOf [("apt", [("curl", ["7.1"])])] "apt") = some rest
        ∧ [PkgEvent.beforePkgs "apt", PkgEvent.pkgV "apt" "curl" "7.1",
            PkgEvent.afterPkgs "apt"]
          = PkgEvent.beforePkgs "apt" :: pkgEvts [("apt", [("curl", ["7.1"])])] "apt"
              ++ PkgEvent.afterPkgs "apt" :: rest
        ∧ (pkgPairs (pkgEvts [("apt", [("curl", ["7.1"])])] "apt")).Pairwise
            (fun x y => strLe x.1 y.1 = true))
      ∧ (∃ ta ty, walkFrom [("apt", [("curl", ["7.1"])])] 1 "apt" = some ta
          ∧ walkFrom [("apt", [("curl", ["7.1"])])] 1 "yum" = some ty
          ∧ [PkgEvent.beforePkgs "apt", PkgEvent.pkgV "apt" "curl" "7.1",
              PkgEvent.afterPkgs "apt", PkgEvent.beforePkgs "yum",
              PkgEvent.afterPkgs "yum"] = ta ++ ty) :=
  ⟨(c6_walk_order_amended [("apt", [("curl", ["7.1"])])] 1).1 "apt"
      [PkgEvent.beforePkgs "apt", PkgEvent.pkgV "apt" "curl" "7.1",
        PkgEvent.afterPkgs "apt"] (by decide),
    (c6_walk_order_amended [("apt", [("curl", ["7.1"])])] 1).2
      [PkgEvent.beforePkgs "apt", PkgEvent.pkgV "apt" "curl" "7.1",
        PkgEvent.afterPkgs "apt", PkgEvent.beforePkgs "yum",
        PkgEvent.afterPkgs "yum"] (by decide)⟩

/-! ## Claim C7: termination of the package walk -/

theorem walkFrom_cycPs_none : ∀ n : Nat,
    walkFrom cycPs n "apt" = none ∧ walkFrom cycPs n "yum" = none := by
  intro n
  induction n with
  | zero => exact ⟨rfl, rfl⟩
  | succ n ih =>
    have hca : childrenOf cycPs "apt" = ["yum"] := by decide
    have hcy : childrenOf cycPs "yum" = ["apt"] := by decide
    constructor
    · simp [walkFrom, hca, walkChildren, ih.2]
    · simp [walkFrom, hcy, walkChildren, ih.1]

/-- C7, counterexample to the claim as stated: the manager hierarchy is not
acyclic by construction: in the blueprint whose packages are
apt: (yum: [1]), yum: (apt: [1]) each root queues the other as a
sub-manager, the recursion alternates between them forever, and no recursion
depth completes the walk. -/
theorem c7_walk_terminates_cex : ¬ walkTerminates cycPs := by
  rintro ⟨n, hn⟩
  have h := (walkFrom_cycPs_none n).1
  simp [walkTop, h] at hn

theorem walkChildren_mono (sub sub' : String → Option (List PkgEvent))
    (hsub : ∀ c e, sub c = some e → sub' c = some e) :
    ∀ (cs : List String) (rest : List PkgEvent),
      walkChildren sub cs = some rest → walkChildren sub' cs = some rest := by
  intro cs
  induction cs with
  | nil => intro rest h; exact h
  | cons c cs ih =>
    intro rest h
    simp only [walkChildren] at h ⊢
    cases hc : sub c with
    | none => rw [hc] at h; exact absurd h (by simp)
    | some e1 =>
      rw [hc] at h
      cases hcs : walkChildren sub cs with
      | none => rw [hcs] at h; exact absurd h (by simp)
      | some es =>
        rw [hcs] at h
        rw [hsub c e1 hc, ih es hcs]
        exact h

theorem walkFrom_mono (ps : PkgMap) :
    ∀ (n : Nat) {n' : Nat} {m : String} {e : List PkgEvent}, n ≤ n' →
      walkFrom ps n m = some e → walkFrom ps n' m = some e := by
  intro n
  induction n with
  | zero =>
    intro n' m e _ h
    exact absurd h (by simp [walkFrom])
  | succ n ih =>
    intro n' m e hle h
    obtain ⟨n'', rfl⟩ : ∃ k, n' = k + 1 := ⟨n' - 1, by omega⟩
    have hle' : n ≤ n'' := by omega
    simp only [walkFrom] at h ⊢
    obtain ⟨rest, hrest, he⟩ := Option.map_eq_some'.mp h
    rw [walkChildren_mono (walkFrom ps n) (walkFrom ps n'')
      (fun c ec hc => ih hle' hc) _ _ hrest]
    simpa using he

theorem walkFrom_total_of_acc (ps : PkgMap) :
    ∀ m : String, Acc (childRel ps) m → ∃ n e, walkFrom ps n m = some e := by
  intro m hacc
  induction hacc with
  | intro m hm ih =>
    have huni : ∀ cs : List String, (∀ c ∈ cs, ∃ n e, walkFrom ps n c = some e) →
        ∃ N rest, walkChildren (walkFrom ps N) cs = some rest := by
      intro cs
      induction cs with
      | nil => intro _; exact ⟨0, [], rfl⟩
      | cons c cs ihcs =>
        intro hall
        obtain ⟨n1, e1, h1⟩ := hall c (List.mem_cons_self c cs)
        obtain ⟨N, rest, hrest⟩ := ihcs (fun c' hc' => hall c' (List.mem_cons_of_mem c hc'))
        refine ⟨max n1 N, e1 ++ rest, ?_⟩
        have h1' : walkFrom ps (max n1 N) c = some e1 :=
          walkFrom_mono ps n1 (le_max_left n1 N) h1
        have hrest' : walkChildren (walkFrom ps (max n1 N)) cs = some rest :=
          walkChildren_mono _ _
            (fun c' e' hc' => walkFrom_mono ps N (le_max_right n1 N) hc') cs rest hrest
        simp [walkChildren, h1', hrest']
    obtain ⟨N, rest, hrest⟩ := huni (childrenOf ps m) (fun c hc => ih c hc)
    exact ⟨N + 1,
      PkgEvent.beforePkgs m :: pkgEvts ps m ++ PkgEvent.afterPkgs m :: rest,
      by simp [walkFrom, hrest]⟩

/-- C7 amended: the hierarchy derived from packages is not acyclic by
construction (see the counterexample), and walk_packages does not terminate
for every blueprint; it does terminate for every blueprint whose hosts
relation is well-founded below the two roots, in particular for every
acyclic hierarchy. -/
theorem c7_walk_terminates_amended (ps : PkgMap)
    (ha : Acc (childRel ps) "apt") (hy : Acc (childRel ps) "yum") :
    walkTerminates ps := by
  obtain ⟨na, ea, hna⟩ := walkFrom_total_of_acc ps "apt" ha
  obtain ⟨ny, ey, hny⟩ := walkFrom_total_of_acc ps "yum" hy
  refine ⟨max na ny, ?_⟩
  have h1 := walkFrom_mono ps na (le_max_left na ny) hna
  have h2 := walkFrom_mono ps ny (le_max_right na ny) hny
  simp [walkTop, h1, h2]

/-- C7 witness: the amended theorem applied to the apt-curl package map,
whose two roots have no sub-managers at all. -/
theorem c7_walk_terminates_witness :
    walkTerminates [("apt", [("curl", ["7.1"])])] := by
  have hapt : childrenOf [("apt", [("curl", ["7.1"])])] "apt" = [] := by decide
  have hyum : childrenOf [("apt", [("curl", ["7.1"])])] "yum" = [] := by decide
  apply c7_walk_terminates_amended
  · refine Acc.intro _ (fun c hc => ?_)
    unfold childRel at hc
    rw [hapt] at hc
    exact absurd hc (List.not_mem_nil c)
  · refine Acc.intro _ (fun c hc => ?_)
    unfold childRel at hc
    rw [hyum] at hc
    exact absurd hc (List.not_mem_nil c)

/-! ## Frame lemmas for subtraction -/

theorem optTouch_refl {β : Type} (x : Option (List β)) : optTouch x x := Or.inl rfl

theorem optTouch_trans {β : Type} {x y z : Option (List β)}
    (h1 : optTouch x y) (h2 : optTouch y z) : optTouch x z := by
  rcases h1 with rfl | ⟨hx, hy⟩
  · rcases h2 with rfl | ⟨hx', hz⟩
    · exact Or.inl rfl
    · exact Or.inr ⟨hx', hz⟩
  · rcases h2 with rfl | ⟨hy', hz⟩
    · exact Or.inr ⟨hx, hy⟩
    · rw [hy] at hy'
      exact absurd hy' (by simp)

theorem touchy_refl (x : Blueprint) : Touchy x x :=
  ⟨rfl, optTouch_refl _, optTouch_refl _, optTouch_refl _, optTouch_refl _⟩

theorem touchy_trans {x y z : Blueprint} (h1 : Touchy x y) (h2 : Touchy y z) :
    Touchy x z :=
  ⟨h2.1.trans h1.1,
    optTouch_trans h1.2.1 h2.2.1,
    optTouch_trans h1.2.2.1 h2.2.2.1,
    optTouch_trans h1.2.2.2.1 h2.2.2.2.1,
    optTouch_trans h1.2.2.2.2 h2.2.2.2.2⟩

theorem optTouch_touch {β : Type} (x y : Option (List β)) (h : optTouch x y) :
    optTouch x (some (y.getD [])) := by
  rcases h with h | ⟨hx, hy⟩
  · rw [h]
    cases x with
    | none => exact Or.inr ⟨rfl, rfl⟩
    | some l => exact Or.inl rfl
  · rw [hy]
    exact Or.inr ⟨hx, rfl⟩

theorem touchy_touchFiles {x y : Blueprint} (h : Touchy x y) :
    Touchy x (touchFiles y) :=
  ⟨h.1, optTouch_touch _ _ h.2.1, h.2.2.1, h.2.2.2.1, h.2.2.2.2⟩

theorem touchy_touchPackages {x y : Blueprint} (h : Touchy x y) :
    Touchy x (touchPackages y) :=
  ⟨h.1, h.2.1, optTouch_touch _ _ h.2.2.1, h.2.2.2.1, h.2.2.2.2⟩

theorem touchy_touchServices {x y : Blueprint} (h : Touchy x y) :
    Touchy x (touchServices y) :=
  ⟨h.1, h.2.1, h.2.2.1, optTouch_touch _ _ h.2.2.2.1, h.2.2.2.2⟩

theorem touchy_touchSources {x y : Blueprint} (h : Touchy x y) :
    Touchy x (touchSources y) :=
  ⟨h.1, h.2.1, h.2.2.1, h.2.2.2.1, optTouch_touch _ _ h.2.2.2.2⟩

theorem touchy_touchWalk {x y : Blueprint} (h : Touchy x y) :
    Touchy x (touchWalk y) :=
  touchy_touchSources (touchy_touchFiles (touchy_touchPackages (touchy_touchServices h)))

theorem managersEval_fst (fuel : Nat) (a : Blueprint) {out : Blueprint × AList (Option String)}
    (h : managersEval fuel a = some out) : out.1 = touchWalk a := by
  unfold managersEval at h
  obtain ⟨evs, _, he⟩ := Option.map_eq_some'.mp h
  rw [← he]

theorem pass2Event_pkgV (fuel : Nat) (st : Blueprint × PkgMap) (m p v : String) :
    pass2Event fuel st (PkgEvent.pkgV m p v)
      = (if ¬ keysMem st.2 p then some st
         else if ¬ (pkgsOf st.2 p).isEmpty then some st
         else
           (managersEval fuel st.1).bind (fun am =>
             (pass2Del am.2 st.2 p).bind (fun b1 => some (am.1, b1)))) := rfl

theorem pass3Event_after (st : Blueprint × PkgMap) (m : String) :
    pass3Event st (PkgEvent.afterPkgs m)
      = (if ¬ keysMem st.2 m then st
         else
           match pass3Deps m with
           | none => st
           | some deps => deps.foldl pass3Insert st) := rfl

theorem pass2Loop_succ (fuel n : Nat) (evs : List PkgEvent) (a : Blueprint) (b : PkgMap) :
    pass2Loop fuel (n + 1) evs a b
      = (pass2Iter fuel evs (a, b)).bind (fun st =>
          if st.2.length = b.length then some st
          else pass2Loop fuel n evs st.1 st.2) := rfl

theorem pass2Event_touchy {base : Blueprint} (fuel : Nat)
    {st st' : Blueprint × PkgMap} (e : PkgEvent)
    (h : pass2Event fuel st e = some st') (ht : Touchy base st.1) : Touchy base st'.1 := by
  cases e with
  | beforePkgs m =>
    cases h
    exact ht
  | afterPkgs m =>
    cases h
    exact ht
  | pkgV m p v =>
    rw [pass2Event_pkgV] at h
    by_cases h1 : keysMem st.2 p
    · rw [if_neg (by simp [h1])] at h
      by_cases h2 : (pkgsOf st.2 p).isEmpty
      · rw [if_neg (by simp [h2])] at h
        cases hme : managersEval fuel st.1 with
        | none => rw [hme] at h; exact absurd h (by simp)
        | some am =>
          rw [hme] at h
          simp only [Option.some_bind] at h
          cases hdel : pass2Del am.2 st.2 p with
          | none => rw [hdel] at h; exact absurd h (by simp)
          | some b1 =>
            rw [hdel] at h
            simp only [Option.some_bind, Option.some.injEq] at h
            rw [← h]
            have := managersEval_fst fuel st.1 hme
            rw [this]
            exact touchy_touchWalk ht
      · rw [if_pos (by simp [h2])] at h
        cases h
        exact ht
    · rw [if_pos (by simp [h1])] at h
      cases h
      exact ht

theorem pass2Iter_touchy {base : Blueprint} (fuel : Nat) :
    ∀ (evs : List PkgEvent) (st st' : Blueprint × PkgMap),
      pass2Iter fuel evs st = some st' → Touchy base st.1 → Touchy base st'.1 := by
  intro evs
  induction evs with
  | nil =>
    intro st st' h ht
    cases h
    exact ht
  | cons e evs ih =>
    intro st st' h ht
    unfold pass2Iter at h ih
    rw [List.foldlM_cons] at h
    cases he : pass2Event fuel st e with
    | none => rw [he] at h; exact absurd h (by simp)
    | some st1 =>
      rw [he] at h
      exact ih st1 st' h (pass2Event_touchy fuel e he ht)

theorem pass2Loop_touchy {base : Blueprint} (fuel : Nat) :
    ∀ (loopFuel : Nat) (evs : List PkgEvent) (a : Blueprint) (b : PkgMap)
      (st' : Blueprint × PkgMap),
      pass2Loop fuel loopFuel evs a b = some st' → Touchy base a → Touchy base st'.1 := by
  intro loopFuel
  induction loopFuel with
  | zero =>
    intro evs a b st' h _
    exact absurd h (by simp [pass2Loop])
  | succ n ih =>
    intro evs a b st' h ht
    rw [pass2Loop_succ] at h
    cases hi : pass2Iter fuel evs (a, b) with
    | none => rw [hi] at h; exact absurd h (by simp)
    | some st1 =>
      rw [hi] at h
      simp only [Option.some_bind] at h
      have ht1 : Touchy base st1.1 := pass2Iter_touchy fuel evs (a, b) st1 hi ht
      by_cases hl : st1.2.length = b.length
      · rw [if_pos hl] at h
        cases h
        exact ht1
      · rw [if_neg hl] at h
        exact ih evs st1.1 st1.2 st' h ht1

theorem pass3Insert_fst (st : Blueprint × PkgMap) (nm : String) :
    (pass3Insert st nm).1 = touchPackages (touchPackages st.1) := by
  unfold pass3Insert
  simp only [List.foldl_cons, List.foldl_nil]
  split <;> split <;> rfl

theorem pass3_fold_touchy {base : Blueprint} :
    ∀ (deps : List String) (st : Blueprint × PkgMap),
      Touchy base st.1 → Touchy base ((deps.foldl pass3Insert st).1) := by
  intro deps
  induction deps with
  | nil => intro st ht; exact ht
  | cons d ds ih =>
    intro st ht
    rw [List.foldl_cons]
    apply ih
    rw [pass3Insert_fst]
    exact touchy_touchPackages (touchy_touchPackages ht)

theorem pass3Event_touchy {base : Blueprint} (st : Blueprint × PkgMap) (e : PkgEvent)
    (ht : Touchy base st.1) : Touchy base ((pass3Event st e).1) := by
  cases e with
  | beforePkgs m => exact ht
  | pkgV m p v => exact ht
  | afterPkgs m =>
    rw [pass3Event_after]
    by_cases hk : keysMem st.2 m
    · rw [if_neg (by simp [hk])]
      cases hd : pass3Deps m with
      | none => exact ht
      | some deps => exact pass3_fold_touchy deps st ht
    · rw [if_pos (by simp [hk])]
      exact ht

theorem pass3_evfold_touchy {base : Blueprint} :
    ∀ (evs : List PkgEvent) (st : Blueprint × PkgMap),
      Touchy base st.1 → Touchy base ((evs.foldl pass3Event st).1) := by
  intro evs
  induction evs with
  | nil => intro st ht; exact ht
  | cons e evs ih =>
    intro st ht
    rw [List.foldl_cons]
    exact ih (pass3Event st e) (pass3Event_touchy st e ht)

/-- The let-free shape of subFuel, used to reason about its pipeline. -/
theorem subFuel_eq (fuel : Nat) (a0 o0 : Blueprint) :
    subFuel fuel a0 o0
      = (walkTop (o0.packages.getD []) fuel).bind (fun evs =>
          (pass2Loop fuel fuel evs (touchFiles a0)
            ((evs.foldl
              (fun bo e =>
                match e with
                | PkgEvent.pkgV m p v => some (pass1Step (bo.getD []) m p v)
                | _ => bo)
              a0.packages).getD [])).bind (fun st2 =>
            some
              ({ arch := a0.arch
                 files := subFilePass a0.files (o0.files.getD [])
                 packages := some ((evs.foldl pass3Event st2).2)
                 services := a0.services
                 sources := subSrcPass a0.sources (o0.sources.getD []) },
                touchSources ((evs.foldl pass3Event st2).1),
                touchWalk (if (a0.files.getD []).isEmpty then o0 else touchFiles o0)))) := rfl

/-! ## Claim C2: subtraction leaves its operands unmutated? -/

/-- C2, counterexample to the claim as stated: subtracting the empty
blueprint from the empty blueprint creates top-level keys on both operands:
the self operand gains empty files and sources keys (lazy property reads in
the file and source passes) and the other operand gains all four container
keys (the three walks over it), so neither operand is deep-equal to its
prior value when key presence counts. -/
theorem c2_sub_frame_cex :
    (subFuel 2 emptyBp emptyBp).map (fun t => t.2)
        = some ({ files := some [], sources := some [] },
            { files := some [], packages := some [], services := some [], sources := some [] })
      ∧ ({ files := some [], sources := some [] } : Blueprint) ≠ emptyBp := by
  exact ⟨by decide, by decide⟩

/-- C2 amended: whenever subtraction completes, the contents of both
operands are untouched: every top-level key present before still holds the
same value, and the only change is that absent container keys may have been
created holding empty defaults by the lazy property reads. -/
theorem c2_sub_frame (fuel : Nat) (a o r a' o' : Blueprint)
    (h : subFuel fuel a o = some (r, a', o')) : Touchy a a' ∧ Touchy o o' := by
  rw [subFuel_eq] at h
  cases hevs : walkTop (o.packages.getD []) fuel with
  | none => rw [hevs] at h; exact absurd h (by simp)
  | some evs =>
    rw [hevs] at h
    simp only [Option.some_bind] at h
    cases hloop : pass2Loop fuel fuel evs (touchFiles a)
        ((evs.foldl
          (fun bo e =>
            match e with
            | PkgEvent.pkgV m p v => some (pass1Step (bo.getD []) m p v)
            | _ => bo)
          a.packages).getD []) with
    | none => rw [hloop] at h; exact absurd h (by simp)
    | some st2 =>
      rw [hloop] at h
      simp only [Option.some_bind, Option.some.injEq, Prod.mk.injEq] at h
      obtain ⟨hr, ha', ho'⟩ := h
      constructor
      · rw [← ha']
        apply touchy_touchSources
        apply pass3_evfold_touchy
        exact pass2Loop_touchy fuel fuel evs (touchFiles a) _ st2 hloop
          (touchy_touchFiles (touchy_refl a))
      · rw [← ho']
        by_cases hf : (a.files.getD []).isEmpty
        · rw [if_pos hf]
          exact touchy_touchWalk (touchy_refl o)
        · rw [if_neg hf]
          exact touchy_touchWalk (touchy_touchFiles (touchy_refl o))

/-- C2 witness: the amended theorem applied to the empty-minus-empty
subtraction computed at fuel 2. -/
theorem c2_sub_frame_witness :
    Touchy emptyBp ({ files := some [], sources := some [] } : Blueprint)
      ∧ Touchy emptyBp ({ files := some [], packages := some [], services := some [], sources := some [] } : Blueprint) :=
  c2_sub_frame 2 emptyBp emptyBp { packages := some [] }
    { files := some [], sources := some [] }
    { files := some [], packages := some [], services := some [], sources := some [] }
    (by decide)

/-! ## Subtracting the empty blueprint -/

theorem walkFrom_nil (n : Nat) (m : String) :
    walkFrom [] (n + 1) m = some [PkgEvent.beforePkgs m, PkgEvent.afterPkgs m] := by
  have hc : childrenOf [] m = [] := rfl
  have hp : pkgEvts [] m = [] := rfl
  simp [walkFrom, hc, hp, walkChildren]

theorem walkTop_nil (n : Nat) :
    walkTop [] (n + 1)
      = some [PkgEvent.beforePkgs "apt", PkgEvent.afterPkgs "apt",
          PkgEvent.beforePkgs "yum", PkgEvent.afterPkgs "yum"] := by
  simp [walkTop, walkFrom_nil]

theorem pass2Loop_stable (fuel n : Nat) (evs : List PkgEvent) (a : Blueprint)
    (bp : PkgMap) (hIter : pass2Iter fuel evs (a, bp) = some (a, bp)) :
    pass2Loop fuel (n + 1) evs a bp = some (a, bp) := by
  rw [pass2Loop_succ, hIter]
  simp

theorem pass3Event_before (st : Blueprint × PkgMap) (m : String) :
    pass3Event st (PkgEvent.beforePkgs m) = st := rfl

theorem pass3Event_after_noDeps (st : Blueprint × PkgMap) (m : String)
    (hd : pass3Deps m = none) : pass3Event st (PkgEvent.afterPkgs m) = st := by
  rw [pass3Event_after]
  by_cases hk : keysMem st.2 m
  · rw [if_neg (by simp [hk]), hd]
  · rw [if_pos (by simp [hk])]

theorem subFilePass_nil (af : Option (AList FileMeta))
    (h : ∀ pf ∈ af.getD [], pf.2 ≠ ([] : FileMeta)) : subFilePass af [] = af := by
  cases af with
  | none => rfl
  | some fs =>
    unfold subFilePass
    simp only [Option.map_some', Option.some.injEq]
    apply List.filter_eq_self.mpr
    intro p hp
    have hne := h p (by simpa using hp)
    simp only [lookupA, Option.getD_none, Bool.not_eq_true']
    rw [beq_eq_false_iff_ne]
    exact fun hh => hne hh.symm

theorem subSrcPass_nil (as : Option (AList String))
    (h : ∀ ps ∈ as.getD [], ps.2 ≠ "") : subSrcPass as [] = as := by
  cases as with
  | none => rfl
  | some ss =>
    unfold subSrcPass
    simp only [Option.map_some', Option.some.injEq]
    apply List.filter_eq_self.mpr
    intro p hp
    have hne := h p (by simpa using hp)
    simp only [lookupA, Option.getD_none, Bool.not_eq_true']
    rw [beq_eq_false_iff_ne]
    exact fun hh => hne hh.symm

/-! ## Claim C3: subtraction identity -/

/-- C3, counterexample to the claim as stated: subtracting the empty
blueprint from a blueprint holding one file with an empty metadata record
deletes that file: the file pass compares the metadata against the empty
default the base returns for a missing pathname, and the two are equal, so
the result is not deep-equal to the original (the file is removed, and an
empty packages key is created as well). -/
theorem c3_sub_identity_cex :
    subResult 2 vFileEmpty emptyBp = some { files := some [], packages := some [] }
      ∧ ({ files := some [], packages := some [] } : Blueprint) ≠ vFileEmpty := by
  exact ⟨by decide, by decide⟩

/-- C3 amended: for every blueprint in which no file carries an empty
metadata record and no source an empty tarball filename, subtracting the
empty blueprint removes nothing and adds nothing: arch, files, services and
sources come back exactly, and packages comes back with the same content,
its key now present (created empty when it was absent, by the lazy property
read in pass 2). -/
theorem c3_sub_identity (v : Blueprint) (fuel : Nat) (r a' o' : Blueprint)
    (hf : ∀ pf ∈ v.files.getD [], pf.2 ≠ ([] : FileMeta))
    (hs : ∀ ps ∈ v.sources.getD [], ps.2 ≠ "")
    (h : subFuel fuel v emptyBp = some (r, a', o')) :
    r.arch = v.arch ∧ r.files = v.files ∧ r.packages = some (v.packages.getD [])
      ∧ r.services = v.services ∧ r.sources = v.sources := by
  cases fuel with
  | zero =>
    rw [subFuel_eq] at h
    exact absurd h (by simp [walkTop, walkFrom])
  | succ n =>
    rw [subFuel_eq] at h
    rw [show walkTop (emptyBp.packages.getD []) (n + 1)
        = some [PkgEvent.beforePkgs "apt", PkgEvent.afterPkgs "apt",
            PkgEvent.beforePkgs "yum", PkgEvent.afterPkgs "yum"] from walkTop_nil n] at h
    simp only [Option.some_bind] at h
    simp only [List.foldl_cons, List.foldl_nil] at h
    rw [pass2Loop_stable (n + 1) n
      [PkgEvent.beforePkgs "apt", PkgEvent.afterPkgs "apt",
        PkgEvent.beforePkgs "yum", PkgEvent.afterPkgs "yum"]
      (touchFiles v) (v.packages.getD []) rfl] at h
    simp only [Option.some_bind] at h
    have hB : ∀ st : Blueprint × PkgMap, pass3Event st (PkgEvent.beforePkgs "apt") = st :=
      fun st => rfl
    have hB' : ∀ st : Blueprint × PkgMap, pass3Event st (PkgEvent.beforePkgs "yum") = st :=
      fun st => rfl
    have hA : ∀ st : Blueprint × PkgMap, pass3Event st (PkgEvent.afterPkgs "apt") = st :=
      fun st => pass3Event_after_noDeps st "apt" (by decide)
    have hA' : ∀ st : Blueprint × PkgMap, pass3Event st (PkgEvent.afterPkgs "yum") = st :=
      fun st => pass3Event_after_noDeps st "yum" (by decide)
    simp only [hB, hB', hA, hA'] at h
    simp only [Option.some.injEq, Prod.mk.injEq] at h
    obtain ⟨hr, ha', ho'⟩ := h
    rw [← hr]
    refine ⟨rfl, ?_, rfl, rfl, ?_⟩
    · exact subFilePass_nil v.files hf
    · exact subSrcPass_nil v.sources hs

/-- C3 witness: the amended theorem applied at fuel 2 to a blueprint with
one file and one source tarball. -/
theorem c3_sub_identity_witness :
    ({ arch := none, files := some [("/a", [("o", "r")])], packages := some [], services := none, sources := some [("/s", "t.tgz")] } : Blueprint).arch = ({ files := some [("/a", [("o", "r")])], sources := some [("/s", "t.tgz")] } : Blueprint).arch
      ∧ ({ arch := none, files := some [("/a", [("o", "r")])], packages := some [], services := none, sources := some [("/s", "t.tgz")] } : Blueprint).files = ({ files := some [("/a", [("o", "r")])], sources := some [("/s", "t.tgz")] } : Blueprint).files
      ∧ ({ arch := none, files := some [("/a", [("o", "r")])], packages := some [], services := none, sources := some [("/s", "t.tgz")] } : Blueprint).packages = some (({ files := some [("/a", [("o", "r")])], sources := some [("/s", "t.tgz")] } : Blueprint).packages.getD [])
      ∧ ({ arch := none, files := some [("/a", [("o", "r")])], packages := some [], services := none, sources := some [("/s", "t.tgz")] } : Blueprint).services = ({ files := some [("/a", [("o", "r")])], sources := some [("/s", "t.tgz")] } : Blueprint).services
      ∧ ({ arch := none, files := some [("/a", [("o", "r")])], packages := some [], services := none, sources := some [("/s", "t.tgz")] } : Blueprint).sources = ({ files := some [("/a", [("o", "r")])], sources := some [("/s", "t.tgz")] } : Blueprint).sources :=
  c3_sub_identity
    { files := some [("/a", [("o", "r")])], sources := some [("/s", "t.tgz")] } 2
    { arch := none, files := some [("/a", [("o", "r")])], packages := some [], services := none, sources := some [("/s", "t.tgz")] }
    { arch := none, files := some [("/a", [("o", "r")])], packages := none, services := none, sources := some [("/s", "t.tgz")] }
    { arch := none, files := some [], packages := some [], services := some [], sources := some [] }
    (by decide) (by decide) (by decide)

/-! ## Claim C8: round-trip of serialization -/

/-- C8, counterexample to the claim as stated: for the blueprint whose
services key is present and empty, deserializing the serialized form gives
the same value back, with the empty services container still present, while
the claimed normalization of all empty optional containers would have
removed it; Python dict equality distinguishes the two, so the round-trip
result is not deep-equal to the normalized value. -/
theorem c8_roundtrip_cex :
    roundTrip svcEmptyBp = some svcEmptyBp
      ∧ svcEmptyBp ≠ specNormalize svcEmptyBp := by
  constructor
  · decide
  · decide

/-- C8 amended: deserializing the serialized form of v yields v with the
null arch and the empty files, packages and sources containers removed (the
dumps cleanup), every remaining dict in key-sorted order; an empty services
container and empty nested containers are preserved.  Serialization after
deserialization reproduces the document exactly, so serialize-deserialize is
idempotent on the canonical form. -/
theorem c8_roundtrip_amended (b : Blueprint) :
    roundTrip b = some (canonBp (dumpsState b))
      ∧ dumpsDoc (canonBp (dumpsState b)) = dumpsDoc b := by
  constructor
  · unfold roundTrip dumpsDoc
    exact decodeFields_encodeFields _
  · exact dumpsDoc_canon_dumpsState b

/-! ## Claim C9: suppression of empty top-level containers -/

/-- C9, counterexample to the claim as stated: the serialized document of
the blueprint whose services container is present and empty carries the
services key with an empty object value, so not every empty top-level
container is suppressed (dumps only cleans files, packages and sources). -/
theorem c9_suppression_cex :
    ("services", Json.jobj []) ∈ dumpsDoc svcEmptyBp
      ∧ isEmptyObj (Json.jobj []) = true := by
  exact ⟨List.mem_singleton_self _, rfl⟩

/-- C9 amended: the serialized document never carries an empty files,
packages or sources container, and carries no arch key at all when arch is
unset (key absent or null); an empty services container, however, is kept. -/
theorem c9_suppression_amended (b : Blueprint) :
    lookupA (dumpsDoc b) "files" ≠ some (Json.jobj [])
      ∧ lookupA (dumpsDoc b) "packages" ≠ some (Json.jobj [])
      ∧ lookupA (dumpsDoc b) "sources" ≠ some (Json.jobj [])
      ∧ (archUnset b → lookupA (dumpsDoc b) "arch" = none) := by
  refine ⟨?_, ?_, ?_, ?_⟩
  · rw [dumpsDoc, lookupA_encodeFields_files]
    cases hf : (dumpsState b).files with
    | none => simp
    | some fs =>
      simp only [Option.map_some']
      intro hc
      have hfs : encFiles fs = Json.jobj [] := by injection hc
      rw [encFiles_eq_empty_iff] at hfs
      exact dumpsState_files_ne b (by rw [hf, hfs])
  · rw [dumpsDoc, lookupA_encodeFields_pkgs]
    cases hp : (dumpsState b).packages with
    | none => simp
    | some ps =>
      simp only [Option.map_some']
      intro hc
      have hps : encPkgs ps = Json.jobj [] := by injection hc
      rw [encPkgs_eq_empty_iff] at hps
      exact dumpsState_pkgs_ne b (by rw [hp, hps])
  · rw [dumpsDoc, lookupA_encodeFields_srcs]
    cases hs : (dumpsState b).sources with
    | none => simp
    | some ss =>
      simp only [Option.map_some']
      intro hc
      have hss : encSrcs ss = Json.jobj [] := by injection hc
      rw [encSrcs_eq_empty_iff] at hss
      exact dumpsState_srcs_ne b (by rw [hs, hss])
  · intro hu
    rw [dumpsDoc, lookupA_encodeFields_arch]
    rcases hu with hu | hu <;> simp [dumpsState, hu]

/-- C9 witness: the amended theorem applied to the sample blueprint with an
unset arch. -/
theorem c9_suppression_witness :
    archUnset svcEmptyBp ∧ lookupA (dumpsDoc svcEmptyBp) "arch" = none :=
  ⟨Or.inl rfl, (c9_suppression_amended svcEmptyBp).2.2.2 (Or.inl rfl)⟩

/-! ## Claim C10: dumps mutates the blueprint itself -/

/-- C10: the cleanup dumps performs acts on the in-memory mapping itself:
a null arch entry and empty files, packages and sources entries are deleted
from the object (the services entry is untouched), so those keys are absent
from the blueprint after dumps returns. -/
theorem c10_dumps_mutates (b : Blueprint) :
    (b.arch = some none → (dumpsState b).arch = none)
      ∧ (b.files = some [] → (dumpsState b).files = none)
      ∧ (b.packages = some [] → (dumpsState b).packages = none)
      ∧ (b.sources = some [] → (dumpsState b).sources = none)
      ∧ (dumpsState b).services = b.services := by
  refine ⟨?_, ?_, ?_, ?_, rfl⟩ <;> intro h <;> simp [dumpsState, h]

/-- C10 witness: the theorem applied to the sample blueprint carrying a null
arch and all four containers empty. -/
theorem c10_dumps_mutates_witness :
    allEmptyBp.arch = some none ∧ allEmptyBp.files = some []
      ∧ allEmptyBp.packages = some [] ∧ allEmptyBp.sources = some []
      ∧ (dumpsState allEmptyBp).arch = none
      ∧ (dumpsState allEmptyBp).files = none
      ∧ (dumpsState allEmptyBp).packages = none
      ∧ (dumpsState allEmptyBp).sources = none
      ∧ (dumpsState allEmptyBp).services = allEmptyBp.services :=
  ⟨rfl, rfl, rfl, rfl,
    (c10_dumps_mutates allEmptyBp).1 rfl,
    (c10_dumps_mutates allEmptyBp).2.1 rfl,
    (c10_dumps_mutates allEmptyBp).2.2.1 rfl,
    (c10_dumps_mutates allEmptyBp).2.2.2.1 rfl,
    (c10_dumps_mutates allEmptyBp).2.2.2.2⟩

end BlueprintSpec
